import Mathlib

/-!
Verification development for the `cisco.radkit` Ansible collection.

The definitions below are shallow embeddings of the Python sources:

* `plugins/connection/network_cli.py` — the `Connection` class
  (`receive`, `receive_radkit`, `_connect`, `_find_prompt`, `_find_error`);
* `plugins/connection/radkit_context.py` — `RadkitConnectionRegistry`
  and `RadkitClientContext`;
* `plugins/modules/command.py` — `_format_command_results`.

Byte strings are modelled as `List Nat`, text as `List Char` / `String`,
wall-clock timestamps as `Int`.  Regex engines and ANSI stripping are kept
abstract (a parameter function), while every loop, branch and field update
is translated from the Python source.
-/

namespace Radkit

/-- Concatenation of a list of chunks (Python `b"".join` / `"".join`). -/
def concatAll {α : Type} : List (List α) → List α
  | [] => []
  | c :: cs => c ++ concatAll cs

/-! ## `Connection.receive` prologue (network_cli.py lines 798-843)

`receive()` starts with exactly these four assignments before any data is
read:

```
self._matched_prompt = None
self._matched_cmd_prompt = None
self._matched_prompt_window = 0
self._window_count = 0
```

The remaining per-command scratch fields of the connection object
(`_last_recv_window`, `_command_response`, initialised to `None` in
`__init__`) are *not* touched by this prologue. -/

/-- The terminal-session scratch fields of `Connection` that are relevant
to one in-flight command (from `Connection.__init__`). -/
structure CliSessionState where
  matched_prompt : Option (List Nat)
  matched_cmd_prompt : Option (List Nat)
  matched_prompt_window : Nat
  window_count : Nat
  last_recv_window : Option (List Nat)
  command_response : Option (List Nat)
deriving DecidableEq

/-- The assignments performed at the start of `Connection.receive()`
(network_cli.py lines 811-814), before any data is read. -/
def receiveReset (s : CliSessionState) : CliSessionState :=
  { s with
    matched_prompt := none
    matched_cmd_prompt := none
    matched_prompt_window := 0
    window_count := 0 }

/-! ## `_format_command_results` (command.py lines 368-405) -/

/-- Python line-boundary characters recognised by `str.splitlines`. -/
def isLineBreakChar (c : Char) : Bool :=
  c.toNat == 0x0a || c.toNat == 0x0d || c.toNat == 0x0b || c.toNat == 0x0c ||
  c.toNat == 0x1c || c.toNat == 0x1d || c.toNat == 0x1e || c.toNat == 0x85 ||
  c.toNat == 0x2028 || c.toNat == 0x2029

/-- Worker for `str.splitlines(keepends=True)`, `acc` holds the current line
reversed.  A `"\r\n"` pair counts as a single boundary. -/
def pySplitlinesAux : List Char → List Char → List (List Char)
  | [], acc => if acc.isEmpty then [] else [acc.reverse]
  | [c], acc =>
    if isLineBreakChar c then [acc.reverse ++ [c]]
    else [(c :: acc).reverse]
  | c :: c2 :: rest, acc =>
    if c.toNat == 0x0d then
      if c2.toNat == 0x0a then
        (acc.reverse ++ [c, c2]) :: pySplitlinesAux rest []
      else
        (acc.reverse ++ [c]) :: pySplitlinesAux (c2 :: rest) []
    else if isLineBreakChar c then
      (acc.reverse ++ [c]) :: pySplitlinesAux (c2 :: rest) []
    else
      pySplitlinesAux (c2 :: rest) (c :: acc)

/-- Python `str.splitlines(keepends=True)`. -/
def pySplitlines (s : List Char) : List (List Char) := pySplitlinesAux s []

/-- Characters removed by Python `str.strip()` (Unicode whitespace). -/
def isPySpace (c : Char) : Bool :=
  (0x09 ≤ c.toNat && c.toNat ≤ 0x0d) || c.toNat == 0x20 ||
  (0x1c ≤ c.toNat && c.toNat ≤ 0x1f) || c.toNat == 0x85 || c.toNat == 0xa0 ||
  c.toNat == 0x1680 || (0x2000 ≤ c.toNat && c.toNat ≤ 0x200a) ||
  c.toNat == 0x2028 || c.toNat == 0x2029 || c.toNat == 0x202f ||
  c.toNat == 0x205f || c.toNat == 0x3000

/-- Python `str.strip()`. -/
def pyStrip (s : List Char) : List Char :=
  ((s.dropWhile isPySpace).reverse.dropWhile isPySpace).reverse

/-- The `stdout` post-processing of `_format_command_results`
(command.py lines 387-392):

```
if remove_prompts and "\n" in stdout:
    lines = stdout.splitlines(keepends=True)
    if len(lines) > 2:
        stdout = "".join(lines[1:-1]).strip()
```
-/
def formatStdout (removePrompts : Bool) (stdout : List Char) : List Char :=
  if removePrompts && stdout.contains '\n' then
    if 2 < (pySplitlines stdout).length then
      pyStrip (concatAll (((pySplitlines stdout).drop 1).dropLast))
    else stdout
  else stdout

/-! ## `RadkitConnectionRegistry` (radkit_context.py lines 27-173)

The registry's `_connections` dict maps a key string to
`{"weak_ref": ..., "last_used": ..., "timeout": ..., "cleanup_timer": ...}`.
We model the dict as an association list (so "at most one entry per key" is
a real invariant), a weak reference as `Option Nat` (`none` when the
referent has been collected), timestamps as `Int`, and `threading.Timer`
objects as `Nat` identifiers.  Every operation also returns the list of
observable actions it performs (timer cancels/starts, entry removals,
forced context cleanups), in program order. -/

/-- One value of the `_connections` dict: exactly the four fields stored by
`register_connection` (radkit_context.py lines 98-103). -/
structure ConnEntry where
  weak_ref : Option Nat
  last_used : Int
  timeout : Int
  cleanup_timer : Option Nat
deriving DecidableEq

/-- The `_connections` dict, as an association list. -/
abbrev ConnMap : Type := List (String × ConnEntry)

/-- Observable registry actions, in program order. -/
inductive RegEvent
  | cancelTimer (t : Nat)
  | startTimer (t : Nat)
  | removeEntry (k : String)
  | forceCleanup (ctx : Nat)
deriving DecidableEq

/-- Lookup: `self._connections[key]` / `key in self._connections`. -/
def lookupEntry (m : ConnMap) (k : String) : Option ConnEntry :=
  match List.find? (fun p => p.1 == k) m with
  | some p => some p.2
  | none => none

/-- Membership test `key in self._connections`. -/
def containsKey (m : ConnMap) (k : String) : Bool :=
  (List.find? (fun p => p.1 == k) m).isSome

/-- Deletion `del self._connections[key]`. -/
def eraseKey (m : ConnMap) (k : String) : ConnMap :=
  List.filter (fun p => !(p.1 == k)) m

/-- Replace the entry stored under an existing key. -/
def setEntry (m : ConnMap) (k : String) (e : ConnEntry) : ConnMap :=
  List.map (fun p => if p.1 == k then (p.1, e) else p) m

/-- Method `_remove_connection` (lines 149-155): cancel the entry's timer (when
the stored timer is not `None`), then delete the entry. -/
def removeConnection (m : ConnMap) (k : String) : ConnMap × List RegEvent :=
  match lookupEntry m k with
  | none => (m, [])
  | some e =>
    (eraseKey m k,
     (match e.cleanup_timer with
      | some t => [RegEvent.cancelTimer t]
      | none => []) ++ [RegEvent.removeEntry k])

/-- Method `_reset_connection_timer` (lines 115-132): cancel any existing timer
and install a fresh one for the entry's timeout. -/
def resetConnectionTimer (m : ConnMap) (k : String) (fresh : Nat) :
    ConnMap × List RegEvent :=
  match lookupEntry m k with
  | none => (m, [])
  | some e =>
    (setEntry m k { e with cleanup_timer := some fresh },
     (match e.cleanup_timer with
      | some t => [RegEvent.cancelTimer t]
      | none => []) ++ [RegEvent.startTimer fresh])

/-- Method `register_connection` (lines 81-106): remove any old entry for the
key, store the fresh four-field record, then arm its timer. -/
def registerConnection (m : ConnMap) (k : String) (ctx : Nat)
    (timeout now : Int) (fresh : Nat) : ConnMap × List RegEvent :=
  let r1 := if containsKey m k then removeConnection m k else (m, [])
  let m2 := r1.1 ++ [(k, ⟨some ctx, now, timeout, none⟩)]
  let r2 := resetConnectionTimer m2 k fresh
  (r2.1, r1.2 ++ r2.2)

/-- Method `update_last_used` (lines 108-113): refresh the timestamp and restart
the timer when the key is registered. -/
def updateLastUsed (m : ConnMap) (k : String) (now : Int) (fresh : Nat) :
    ConnMap × List RegEvent :=
  match lookupEntry m k with
  | none => (m, [])
  | some e =>
    resetConnectionTimer (setEntry m k { e with last_used := now }) k fresh

/-- The `to_remove` list of `_cleanup_stale_connections` (lines 61-76):
entries whose weak reference died, or whose idle time exceeds the
timeout. -/
def staleKeys (m : ConnMap) (now : Int) : List String :=
  (List.filter
    (fun p => p.2.weak_ref == none || decide (now - p.2.last_used > p.2.timeout)) m).map
    (fun p => p.1)

/-- Loop `for key in to_remove: self._remove_connection(key)`. -/
def removeMany (m : ConnMap) : List String → ConnMap × List RegEvent
  | [] => (m, [])
  | k :: ks =>
    let r1 := removeConnection m k
    let r2 := removeMany r1.1 ks
    (r2.1, r1.2 ++ r2.2)

/-- Method `_cleanup_stale_connections` (lines 61-79). -/
def cleanupStale (m : ConnMap) (now : Int) : ConnMap × List RegEvent :=
  removeMany m (staleKeys m now)

/-- The weak-reference death callback installed by `register_connection`
(lines 91-94). -/
def cleanupCallback (m : ConnMap) (k : String) : ConnMap × List RegEvent :=
  if containsKey m k then removeConnection m k else (m, [])

/-- Method `_cleanup_connection_by_timer` (lines 134-147): when the timer fires,
destroy the entry only if the referent is still alive and at least
`timeout` seconds passed since `last_used`. -/
def cleanupByTimer (m : ConnMap) (k : String) (now : Int) :
    ConnMap × List RegEvent :=
  match lookupEntry m k with
  | none => (m, [])
  | some e =>
    match e.weak_ref with
    | none => (m, [])
    | some ctx =>
      if now - e.last_used ≥ e.timeout then
        let r := removeConnection m k
        (r.1, RegEvent.forceCleanup ctx :: r.2)
      else (m, [])

/-- The per-entry loop body of `cleanup_all` (lines 163-170): cancel the
timer, then force-clean the still-referenced context. -/
def cleanupAllEntry (e : ConnEntry) : List RegEvent :=
  (match e.cleanup_timer with
   | some t => [RegEvent.cancelTimer t]
   | none => []) ++
  (match e.weak_ref with
   | some ctx => [RegEvent.forceCleanup ctx]
   | none => [])

/-- Method `cleanup_all` (lines 157-172): cancel every timer and force-clean every
live context, then `self._connections.clear()`. -/
def cleanupAll (m : ConnMap) : ConnMap × List RegEvent :=
  (([] : List (String × ConnEntry)),
   concatAll (m.map (fun p => cleanupAllEntry p.2)) ++
     m.map (fun p => RegEvent.removeEntry p.1))

/-- The dict invariant: at most one entry per key. -/
def keysNodup (m : ConnMap) : Prop :=
  (m.map (fun p => p.1)).Nodup

instance (m : ConnMap) : Decidable (keysNodup m) := by
  unfold keysNodup
  infer_instance

/-- Method `RadkitClientContext._create_connection_key` (lines 221-226):
`f"{identity}|{service_serial}|{device_filter}"`, with `""` whenever the
option/attribute is missing. -/
def createConnectionKey (identity serviceSerial deviceFilter : Option String) : String :=
  identity.getD "" ++ "|" ++ serviceSerial.getD "" ++ "|" ++ deviceFilter.getD ""

/-- The `register_connection` call made from `RadkitClientContext.__init__`
(lines 214-219): the context registers itself under its connection key. -/
def contextRegister (m : ConnMap) (identity serviceSerial deviceFilter : Option String)
    (ctx : Nat) (timeout now : Int) (fresh : Nat) : ConnMap × List RegEvent :=
  registerConnection m (createConnectionKey identity serviceSerial deviceFilter)
    ctx timeout now fresh

/-! ## `Connection.receive_radkit` (network_cli.py lines 685-796)

The read loop is embedded as a step function over the sequence of data
chunks returned by `self.ssh_type_conn.read(...)`.  The regex engine is
abstract: `search p w` is `re.search` of pattern id `p` against window `w`
returning `match.group()`; `_find_prompt` / `_find_error` iterate over the
configured pattern lists exactly as in the source.  `stripFn` stands for
`_strip` (ANSI removal), `sanitizeFn` for `_sanitize` (which depends on the
command and the matched prompt).  `_handle_prompt` is abstracted by a
window-indexed predicate (its internal `prompts.pop` makes it stateful).
Timers and signals are not modelled: a `read` either yields the next chunk
of the input list, or the input is exhausted (`pending`, or the
buffer-read timer firing when `command_prompt_matched` is set). -/

/-- Configuration of one `receive_radkit` call. `brtZero` is
`persistent_buffer_read_timeout == 0.0`. -/
structure RxCfg where
  search : Nat → List Nat → Option (List Nat)
  stdoutRe : List Nat
  stderrRe : List Nat
  stripFn : List Nat → List Nat
  sanitizeFn : List Nat → Option (List Nat) → List Nat
  handlePromptFn : Nat → List Nat → Bool
  handleRetryFn : Nat → List Nat → Bool
  prompts : Bool
  promptRetry : Bool
  brtZero : Bool

/-- Method `_find_prompt` (lines 1034-1047): first `terminal_stdout_re` pattern
that matches; returns the matched group. -/
def find_prompt (search : Nat → List Nat → Option (List Nat)) :
    List Nat → List Nat → Option (List Nat)
  | [], _ => none
  | p :: ps, resp =>
    match search p resp with
    | some g => some g
    | none => find_prompt search ps resp

/-- Method `_find_error` (lines 1017-1032): any `terminal_stderr_re` pattern
matches. -/
def find_error (search : Nat → List Nat → Option (List Nat))
    (patterns : List Nat) (resp : List Nat) : Bool :=
  patterns.any (fun p => (search p resp).isSome)

/-- The mutable state of the loop (connection fields plus the loop
locals `recv`, `handled`, `errored_response`, `command_prompt_matched`). -/
structure RxState where
  buf : List Nat
  handled : Bool
  erroredResponse : Option (List Nat)
  matchedPrompt : Option (List Nat)
  matchedPromptWindow : Nat
  windowCount : Nat
  lastRecvWindow : Option (List Nat)
  cmdPromptMatched : Bool
  commandResponse : Option (List Nat)
  lastResponse : Option (List Nat)
deriving DecidableEq

/-- Outcome of one loop iteration. -/
inductive RxStepOut
  | cont (st : RxState)
  | ret (resp : List Nat)
  | connFail (w : List Nat)
  | badAnswer
deriving DecidableEq

/-- Outcome of running the loop on a finite chunk sequence. -/
inductive RxFinal
  | ret (resp : List Nat)
  | connFail (w : List Nat)
  | badAnswer
  | pending (st : RxState)
deriving DecidableEq

/-- Source line `offset = recv.tell() - 512 if recv.tell() > 512 else 0`
(network_cli.py line 747). -/
def windowOffset (buf : List Nat) : Nat :=
  if buf.length > 512 then buf.length - 512 else 0

/-- Source lines `recv.seek(offset); window = self._strip(recv.read())`
(lines 748-750). -/
def windowOf (cfg : RxCfg) (buf : List Nat) : List Nat :=
  cfg.stripFn (buf.drop (windowOffset buf))

/-- The `if prompts and not handled` guard (line 754). -/
def rxBranch1 (cfg : RxCfg) (st : RxState) : Bool :=
  cfg.prompts && ! st.handled

/-- New value of `handled` after the prompt-handling branch. -/
def rxHandled (cfg : RxCfg) (st : RxState) (window : List Nat) (wc : Nat) : Bool :=
  if rxBranch1 cfg st then cfg.handlePromptFn wc window else st.handled

/-- New value of `_matched_prompt_window`. -/
def rxMpw (cfg : RxCfg) (st : RxState) (wc : Nat) : Nat :=
  if rxBranch1 cfg st then wc else st.matchedPromptWindow

/-- The `elif` retry-check branch (lines 759-779) raising
"answer is not valid". -/
def rxRetryHit (cfg : RxCfg) (st : RxState) (window : List Nat) (wc : Nat) : Bool :=
  ! rxBranch1 cfg st && cfg.prompts && st.handled && cfg.promptRetry &&
    (st.matchedPromptWindow + 1 == wc) && cfg.handleRetryFn wc window

/-- Source lines `if self._find_error(window): errored_response = window`
(lines 781-784). -/
def rxErrored (cfg : RxCfg) (st : RxState) (window : List Nat) : Option (List Nat) :=
  if find_error cfg.search cfg.stderrRe window then some window
  else st.erroredResponse

/-- The prompt-found tail of the loop body (lines 786-796), after the
`errored_response` check: store and return the sanitized response when the
buffer-read timeout is 0.0, otherwise set `command_prompt_matched`. -/
def rxPromptFound (cfg : RxCfg) (st : RxState) (buf window g : List Nat) : RxStepOut :=
  if cfg.brtZero then
    RxStepOut.ret (cfg.sanitizeFn (cfg.stripFn buf) (some g))
  else
    RxStepOut.cont
      { buf := buf
        handled := rxHandled cfg st window (st.windowCount + 1)
        erroredResponse := rxErrored cfg st window
        matchedPrompt := some g
        matchedPromptWindow := rxMpw cfg st (st.windowCount + 1)
        windowCount := st.windowCount + 1
        lastRecvWindow := some window
        cmdPromptMatched := true
        commandResponse := some (cfg.sanitizeFn (cfg.stripFn buf) (some g))
        lastResponse := some buf }

/-- One iteration of the `while True` loop on the accumulated buffer `buf`
(after `recv.write(data)`) and the scan window `window`. -/
def rxStepCore (cfg : RxCfg) (st : RxState) (buf window : List Nat) : RxStepOut :=
  if rxRetryHit cfg st window (st.windowCount + 1) then RxStepOut.badAnswer
  else
    match find_prompt cfg.search cfg.stdoutRe window with
    | none =>
      RxStepOut.cont
        { buf := buf
          handled := rxHandled cfg st window (st.windowCount + 1)
          erroredResponse := rxErrored cfg st window
          matchedPrompt := st.matchedPrompt
          matchedPromptWindow := rxMpw cfg st (st.windowCount + 1)
          windowCount := st.windowCount + 1
          lastRecvWindow := some window
          cmdPromptMatched := false
          commandResponse := st.commandResponse
          lastResponse := st.lastResponse }
    | some g =>
      match rxErrored cfg st window with
      | some w =>
        if w.isEmpty then rxPromptFound cfg st buf window g
        else RxStepOut.connFail w
      | none => rxPromptFound cfg st buf window g

/-- One iteration fed with the next data chunk. -/
def rxStep (cfg : RxCfg) (st : RxState) (chunk : List Nat) : RxStepOut :=
  rxStepCore cfg st (st.buf ++ chunk) (windowOf cfg (st.buf ++ chunk))

/-- Run the loop over a finite chunk sequence.  On exhausted input with
`command_prompt_matched` set, the buffer-read timer fires
(`AnsibleCmdRespRecv`) and `_command_response` is returned (lines 700-721). -/
def rxRun (cfg : RxCfg) (st : RxState) : List (List Nat) → RxFinal
  | [] =>
    if st.cmdPromptMatched then RxFinal.ret (st.commandResponse.getD [])
    else RxFinal.pending st
  | c :: cs =>
    match rxStep cfg st c with
    | RxStepOut.cont st' => rxRun cfg st' cs
    | RxStepOut.ret r => RxFinal.ret r
    | RxStepOut.connFail w => RxFinal.connFail w
    | RxStepOut.badAnswer => RxFinal.badAnswer

/-- State at the top of `receive_radkit` after the `receive()` prologue:
fresh `BytesIO`, `handled = False`, `errored_response = None`,
`command_prompt_matched = False`; `_command_response`, `_last_recv_window`
and `_last_response` keep their stale values. -/
def rxInit (st : RxState) : RxState :=
  { st with
    buf := []
    handled := false
    erroredResponse := none
    matchedPrompt := none
    matchedPromptWindow := 0
    windowCount := 0
    cmdPromptMatched := false }

/-- Constructor tag of a step outcome. -/
def outKind : RxStepOut → Nat
  | RxStepOut.cont _ => 0
  | RxStepOut.ret _ => 1
  | RxStepOut.connFail _ => 2
  | RxStepOut.badAnswer => 3

/-- A concrete configuration for evaluating the loop: pattern 0 (stdout)
matches when byte `35` (`#`) occurs, pattern 1 (stderr) when byte `69`
(`E`) occurs; stripping and sanitizing are the identity. -/
def rxCfgW : RxCfg :=
  { search := fun p w =>
      if p == 0 then (if w.contains 35 then some [35] else none)
      else (if w.contains 69 then some [69] else none)
    stdoutRe := [0]
    stderrRe := [1]
    stripFn := fun b => b
    sanitizeFn := fun r _ => r
    handlePromptFn := fun _ _ => false
    handleRetryFn := fun _ _ => false
    prompts := false
    promptRetry := false
    brtZero := true }

/-- A fresh loop state. -/
def rxStW : RxState := ⟨[], false, none, none, 0, 0, none, false, none, none⟩

/-- A loop state that has already recorded an errored window. -/
def rxStErrW : RxState := ⟨[], false, some [69], none, 0, 0, none, false, none, none⟩

/-! ## Connection retry with exponential backoff (network_cli.py 548-585,
radkit_context.py 316-364)

`fails i` abstracts whether the i-th SDK call raises a retryable
exception.  Each loop returns `(connected?, pauses-slept)`; a `false`
first component is the `AnsibleConnectionFailure` raise.  The fuel
argument matches the `for attempt in range(...)` bound and is always
sufficient at the entry points. -/

/-- Sum of a list of seconds. -/
def intSum : List Int → Int
  | [] => 0
  | x :: xs => x + intSum xs

/-- The body of `Connection._connect`'s retry loop: at attempt `attempt`
with `total_pause = totalPause`, a failure either raises (when
`attempt == retries or total_pause >= max_pause`) or sleeps
`2 ** (attempt + 1)` seconds and retries. -/
def connectAttemptsAux (fails : Nat → Bool) (retries : Nat) (maxPause : Int) :
    Nat → Nat → Int → Bool × List Int
  | 0, _, _ => (false, [])
  | fuel + 1, attempt, totalPause =>
    if fails attempt then
      if attempt = retries ∨ totalPause ≥ maxPause then (false, [])
      else
        ((connectAttemptsAux fails retries maxPause fuel (attempt + 1)
            (totalPause + 2 ^ (attempt + 1))).1,
         ((2 : Int) ^ (attempt + 1)) ::
           (connectAttemptsAux fails retries maxPause fuel (attempt + 1)
             (totalPause + 2 ^ (attempt + 1))).2)
    else (true, [])

/-- Method `Connection._connect` (lines 555-585): `for attempt in range(retries + 1)`
starting with `total_pause = 0`;
`max_pause = min(persistent_connect_timeout, persistent_command_timeout)`. -/
def connectWithRetries (fails : Nat → Bool) (retries : Nat) (maxPause : Int) :
    Bool × List Int :=
  connectAttemptsAux fails retries maxPause (retries + 1) 0 0

/-- The body of `_perform_login`'s retry loop (radkit_context.py 316-364):
the last attempt (`attempt == max_retries - 1`) raises, earlier failures
sleep `2 ** attempt` seconds. -/
def loginAttemptsAux (fails : Nat → Bool) (maxRetries : Nat) :
    Nat → Nat → Bool × List Int
  | 0, _ => (false, [])
  | fuel + 1, attempt =>
    if fails attempt then
      if attempt = maxRetries - 1 then (false, [])
      else
        ((loginAttemptsAux fails maxRetries fuel (attempt + 1)).1,
         ((2 : Int) ^ attempt) ::
           (loginAttemptsAux fails maxRetries fuel (attempt + 1)).2)
    else (true, [])

/-- Method `_perform_login` with its hard-coded `max_retries = 3`. -/
def performLogin (fails : Nat → Bool) : Bool × List Int :=
  loginAttemptsAux fails 3 3 0

/-! ## Lock discipline of `RadkitConnectionRegistry` (radkit_context.py)

Each registry method is abstracted to its sequence of lock operations and
`_connections` accesses (reads and writes), in program order; branch
conditions become `Bool` parameters, iteration lengths `Nat` parameters.
`lockRun` tracks the RLock hold depth and reports `none` if any map access
happens with the lock not held. -/

inductive LockAct
  | acq
  | rel
  | access
deriving DecidableEq

/-- Run a trace from hold-depth `d`; `none` on an unlocked map access. -/
def lockRun : Nat → List LockAct → Option Nat
  | d, [] => some d
  | d, LockAct.acq :: r => lockRun (d + 1) r
  | d, LockAct.rel :: r => lockRun (d - 1) r
  | d, LockAct.access :: r => if d = 0 then none else lockRun d r

/-- Trace of `_remove_connection` (lines 149-155): `key in` check, then (when
present) a `conn_info` read and the `del`; takes no lock of its own. -/
def removeConnTrace (present : Bool) : List LockAct :=
  [LockAct.access] ++ (if present then [LockAct.access, LockAct.access] else [])

/-- Trace of `_reset_connection_timer` (lines 115-132): `key not in` check, a
`conn_info` read, and the store of the new timer into the entry. -/
def resetTimerTrace (present : Bool) : List LockAct :=
  [LockAct.access] ++ (if present then [LockAct.access, LockAct.access] else [])

/-- Trace of `register_connection` (lines 81-106): one `with self._lock` block. -/
def registerTrace (present : Bool) : List LockAct :=
  [LockAct.acq, LockAct.access] ++ (if present then removeConnTrace true else []) ++
    [LockAct.access] ++ resetTimerTrace true ++ [LockAct.rel]

/-- Trace of `update_last_used` (lines 108-113): one `with self._lock` block. -/
def updateLastUsedTrace (present : Bool) : List LockAct :=
  [LockAct.acq, LockAct.access] ++
    (if present then [LockAct.access] ++ resetTimerTrace true else []) ++
    [LockAct.rel]

/-- Trace of `_cleanup_stale_connections` (lines 61-79): iterate the dict (`n`
entry reads) and remove the collected keys, all inside one
`with self._lock` block. -/
def cleanupStaleTrace (n : Nat) (removals : List Bool) : List LockAct :=
  [LockAct.acq] ++ List.replicate n LockAct.access ++
    concatAll (removals.map removeConnTrace) ++ [LockAct.rel]

/-- The weak-reference death callback (lines 91-94): `with self._lock`. -/
def callbackTrace (present : Bool) : List LockAct :=
  [LockAct.acq, LockAct.access] ++
    (if present then removeConnTrace present else []) ++ [LockAct.rel]

/-- Trace of `_cleanup_connection_by_timer` (lines 134-147): `with self._lock`. -/
def timerFireTrace (present alive expired : Bool) : List LockAct :=
  [LockAct.acq, LockAct.access] ++
    (if present then
      [LockAct.access] ++
        (if alive then
          [LockAct.access, LockAct.access] ++
            (if expired then removeConnTrace true else [])
        else [])
    else []) ++ [LockAct.rel]

/-- Trace of `cleanup_all` (lines 157-172): iterate entries (`n` reads) and
`clear()`, inside one `with self._lock` block. -/
def cleanupAllTrace (n : Nat) : List LockAct :=
  [LockAct.acq] ++ List.replicate n LockAct.access ++
    [LockAct.access] ++ [LockAct.rel]

/-! ## `RadkitClientContext` cleanup lifecycle (radkit_context.py 175-437) -/

/-- The context fields touched by `_force_cleanup`: `self.stack`
(`ExitStack` id), `self.client`, `self._cleanup_done`. -/
structure ClientCtx where
  stack : Option Nat
  client : Option Nat
  cleanup_done : Bool
deriving DecidableEq

/-- Observable context actions. -/
inductive CtxEvent
  | closeStack (s : Nat)
  | createClient
deriving DecidableEq

/-- Method `_force_cleanup` (lines 394-410): a no-op once `_cleanup_done` holds;
otherwise set the flag, close the stack if present, and null out the
stack and client. -/
def forceCleanup (c : ClientCtx) : ClientCtx × List CtxEvent :=
  if c.cleanup_done then (c, [])
  else
    ({ stack := none, client := none, cleanup_done := true },
     match c.stack with
     | some s => [CtxEvent.closeStack s]
     | none => [])

/-- The initialize method (lines 228-256): raises `AnsibleConnectionFailure` with
no client creation when the context was cleaned up; otherwise
`_create_client` runs and, on a login failure, `_handle_error` force-cleans
before re-raising. -/
def initializeContext (c : ClientCtx) (freshStack freshClient : Nat)
    (loginOk : Bool) : Except String ClientCtx × List CtxEvent :=
  if c.cleanup_done then
    (Except.error "Connection context has been cleaned up", [])
  else
    let c1 : ClientCtx :=
      { stack := some freshStack, client := some freshClient, cleanup_done := false }
    if loginOk then (Except.ok c1, [CtxEvent.createClient])
    else
      (Except.error "login failed",
       CtxEvent.createClient :: (forceCleanup c1).2)

/-! ### Registry helper lemmas -/

/-- Timer ids cancelled by a list of events, in order. -/
def cancelsIn : List RegEvent → List Nat
  | [] => []
  | RegEvent.cancelTimer t :: r => t :: cancelsIn r
  | _ :: r => cancelsIn r

/-- Predicate: every removal is preceded by a cancel of the removed entry's timer;
worker scanning the events, `cancelled` collects the timers cancelled so
far; the timer of a removed key is read off the operation's pre-state
`m`. -/
def cbrAux (m : ConnMap) : List Nat → List RegEvent → Bool
  | _, [] => true
  | cancelled, RegEvent.cancelTimer t :: r => cbrAux m (t :: cancelled) r
  | cancelled, RegEvent.removeEntry k :: r =>
    (match (lookupEntry m k).bind (fun e => e.cleanup_timer) with
     | none => true
     | some t => decide (t ∈ cancelled)) && cbrAux m cancelled r
  | cancelled, RegEvent.startTimer _ :: r => cbrAux m cancelled r
  | cancelled, RegEvent.forceCleanup _ :: r => cbrAux m cancelled r

/-- Every `removeEntry k` among `evs` is preceded by a `cancelTimer` of the
timer stored for `k` in the pre-state `m` (when that entry had one). -/
def cancelsBeforeRemoves (m : ConnMap) (evs : List RegEvent) : Bool :=
  cbrAux m [] evs

/-- Entries surviving a removal keep their stored record. -/
def SubMap (m m₀ : ConnMap) : Prop :=
  ∀ k e, lookupEntry m k = some e → lookupEntry m₀ k = some e

theorem cbrAux_nil (m : ConnMap) (c : List Nat) : cbrAux m c [] = true := rfl

theorem cbrAux_cancel (m : ConnMap) (c : List Nat) (t : Nat) (r : List RegEvent) :
    cbrAux m c (RegEvent.cancelTimer t :: r) = cbrAux m (t :: c) r := rfl

theorem cbrAux_start (m : ConnMap) (c : List Nat) (t : Nat) (r : List RegEvent) :
    cbrAux m c (RegEvent.startTimer t :: r) = cbrAux m c r := rfl

theorem cbrAux_force (m : ConnMap) (c : List Nat) (x : Nat) (r : List RegEvent) :
    cbrAux m c (RegEvent.forceCleanup x :: r) = cbrAux m c r := rfl

theorem cbrAux_remove (m : ConnMap) (c : List Nat) (k : String) (r : List RegEvent) :
    cbrAux m c (RegEvent.removeEntry k :: r) =
      ((match (lookupEntry m k).bind (fun e => e.cleanup_timer) with
        | none => true
        | some t => decide (t ∈ c)) && cbrAux m c r) := rfl

theorem lookupEntry_nil (k : String) : lookupEntry [] k = none := rfl

theorem beq_of_eq_str {a b : String} (h : a = b) : (a == b) = true :=
  beq_iff_eq.mpr h

theorem beq_of_ne_str {a b : String} (h : ¬ a = b) : (a == b) = false := by
  cases hb : (a == b)
  · rfl
  · exact absurd (beq_iff_eq.mp hb) h

theorem lookupEntry_cons (p : String × ConnEntry) (t : ConnMap) (k : String) :
    lookupEntry (p :: t) k = if p.1 = k then some p.2 else lookupEntry t k := by
  by_cases h : p.1 = k
  · simp [lookupEntry, List.find?, beq_of_eq_str h, h]
  · simp [lookupEntry, List.find?, beq_of_ne_str h, h]

theorem eraseKey_cons (p : String × ConnEntry) (t : ConnMap) (k : String) :
    eraseKey (p :: t) k = if p.1 = k then eraseKey t k else p :: eraseKey t k := by
  by_cases h : p.1 = k
  · simp [eraseKey, List.filter, beq_of_eq_str h, h]
  · simp [eraseKey, List.filter, beq_of_ne_str h, h]

theorem setEntry_cons (p : String × ConnEntry) (t : ConnMap) (k : String) (e : ConnEntry) :
    setEntry (p :: t) k e = (if p.1 = k then (p.1, e) else p) :: setEntry t k e := by
  by_cases h : p.1 = k
  · simp [setEntry, beq_of_eq_str h, h]
  · simp [setEntry, beq_of_ne_str h, h]

theorem containsKey_eq_isSome (m : ConnMap) (k : String) :
    containsKey m k = (lookupEntry m k).isSome := by
  unfold containsKey lookupEntry
  cases List.find? (fun p => p.1 == k) m <;> rfl

theorem lookupEntry_eraseKey (m : ConnMap) (k k' : String) :
    lookupEntry (eraseKey m k) k' = if k' = k then none else lookupEntry m k' := by
  induction m with
  | nil =>
    show lookupEntry [] k' = if k' = k then none else lookupEntry [] k'
    by_cases h : k' = k <;> simp [lookupEntry_nil, h]
  | cons p t ih =>
    rw [eraseKey_cons]
    by_cases hpk : p.1 = k
    · rw [if_pos hpk, ih, lookupEntry_cons]
      by_cases hk' : k' = k
      · simp [hk']
      · have : ¬ p.1 = k' := by rw [hpk]; exact fun h => hk' h.symm
        simp [hk', this]
    · rw [if_neg hpk, lookupEntry_cons, lookupEntry_cons, ih]
      by_cases hpk' : p.1 = k'
      · have hk' : ¬ k' = k := fun h => hpk (hpk'.trans h)
        simp [hpk', hk']
      · simp [hpk']

theorem lookupEntry_setEntry_self (m : ConnMap) (k : String) (e : ConnEntry)
    (h : containsKey m k = true) :
    lookupEntry (setEntry m k e) k = some e := by
  induction m with
  | nil => simp [containsKey, List.find?] at h
  | cons p t ih =>
    rw [setEntry_cons, lookupEntry_cons]
    by_cases hpk : p.1 = k
    · simp [hpk]
    · rw [if_neg hpk]
      simp only [if_neg hpk]
      refine ih ?_
      rw [containsKey_eq_isSome] at h ⊢
      rw [lookupEntry_cons, if_neg hpk] at h
      exact h

theorem lookupEntry_setEntry_ne (m : ConnMap) (k k' : String) (e : ConnEntry)
    (h : ¬ k' = k) :
    lookupEntry (setEntry m k e) k' = lookupEntry m k' := by
  induction m with
  | nil => rfl
  | cons p t ih =>
    rw [setEntry_cons, lookupEntry_cons, lookupEntry_cons]
    by_cases hpk : p.1 = k
    · have hne : ¬ p.1 = k' := by rw [hpk]; exact fun hh => h hh.symm
      have hkk' : ¬ k = k' := fun hh => h hh.symm
      simp [hpk, hne, hkk', ih]
    · by_cases hpk' : p.1 = k'
      · simp [hpk, hpk', h]
      · simp [hpk, hpk', ih]

theorem setEntry_keys (m : ConnMap) (k : String) (e : ConnEntry) :
    (setEntry m k e).map (fun p => p.1) = m.map (fun p => p.1) := by
  induction m with
  | nil => rfl
  | cons p t ih =>
    rw [setEntry_cons]
    by_cases h : p.1 = k <;> simp [h, ih]

theorem containsKey_setEntry (m : ConnMap) (k k' : String) (e : ConnEntry) :
    containsKey (setEntry m k e) k' = containsKey m k' := by
  induction m with
  | nil => rfl
  | cons p t ih =>
    rw [setEntry_cons, containsKey_eq_isSome, containsKey_eq_isSome,
      lookupEntry_cons, lookupEntry_cons]
    have hfst : (if p.1 = k then (p.1, e) else p).1 = p.1 := by
      by_cases h : p.1 = k <;> simp [h]
    rw [hfst]
    by_cases hpk' : p.1 = k'
    · simp [hpk']
    · simp only [if_neg hpk']
      rw [← containsKey_eq_isSome, ← containsKey_eq_isSome]
      exact ih

theorem containsKey_cons (p : String × ConnEntry) (t : ConnMap) (k : String) :
    containsKey (p :: t) k = if p.1 = k then true else containsKey t k := by
  rw [containsKey_eq_isSome, lookupEntry_cons]
  by_cases h : p.1 = k <;> simp [h, ← containsKey_eq_isSome]

theorem keysNodup_eraseKey (m : ConnMap) (k : String) (h : keysNodup m) :
    keysNodup (eraseKey m k) := by
  unfold keysNodup at *
  exact List.Nodup.sublist (List.Sublist.map _ (List.filter_sublist m)) h

theorem keysNodup_setEntry (m : ConnMap) (k : String) (e : ConnEntry)
    (h : keysNodup m) : keysNodup (setEntry m k e) := by
  unfold keysNodup at *
  rw [setEntry_keys]
  exact h

theorem not_mem_keys_eraseKey (m : ConnMap) (k : String) :
    ¬ k ∈ (eraseKey m k).map (fun p => p.1) := by
  intro hmem
  rcases List.mem_map.mp hmem with ⟨p, hp, hpk⟩
  rcases List.mem_filter.mp hp with ⟨_, hpred⟩
  rw [hpk] at hpred
  simp at hpred

theorem not_mem_keys_of_not_containsKey (m : ConnMap) (k : String)
    (h : containsKey m k = false) : ¬ k ∈ m.map (fun p => p.1) := by
  intro hmem
  rcases List.mem_map.mp hmem with ⟨p, hp, hpk⟩
  have hfind : List.find? (fun p => p.1 == k) m = none := by
    unfold containsKey at h
    cases hf : List.find? (fun p => p.1 == k) m
    · rfl
    · rw [hf] at h; simp at h
  have := List.find?_eq_none.mp hfind p hp
  rw [hpk] at this
  simp at this

theorem keysNodup_append_single (l : ConnMap) (k : String) (e : ConnEntry)
    (h : keysNodup l) (hnot : ¬ k ∈ l.map (fun p => p.1)) :
    keysNodup (l ++ [(k, e)]) := by
  unfold keysNodup at *
  rw [List.map_append]
  rw [List.nodup_append]
  refine ⟨h, List.nodup_singleton k, ?_⟩
  intro a ha hb
  rcases List.mem_singleton.mp hb with rfl
  exact hnot ha

theorem lookupEntry_append_right (l : ConnMap) (k : String) (e : ConnEntry)
    (h : containsKey l k = false) :
    lookupEntry (l ++ [(k, e)]) k = some e := by
  induction l with
  | nil =>
    rw [List.nil_append, lookupEntry_cons]
    simp
  | cons p t ih =>
    rw [containsKey_cons] at h
    by_cases hpk : p.1 = k
    · rw [if_pos hpk] at h; exact absurd h (by simp)
    · rw [if_neg hpk] at h
      rw [List.cons_append, lookupEntry_cons, if_neg hpk]
      exact ih h

theorem lookupEntry_of_mem_nodup (m : ConnMap) (k : String) (e : ConnEntry)
    (hnd : keysNodup m) (hmem : (k, e) ∈ m) : lookupEntry m k = some e := by
  induction m with
  | nil => cases hmem
  | cons p t ih =>
    rw [lookupEntry_cons]
    rcases List.mem_cons.mp hmem with heq | htail
    · rw [← heq]
      simp
    · by_cases hpk : p.1 = k
      · exfalso
        have hk : k ∈ t.map (fun p => p.1) :=
          List.mem_map.mpr ⟨(k, e), htail, rfl⟩
        unfold keysNodup at hnd
        rw [List.map_cons, List.nodup_cons] at hnd
        exact hnd.1 (hpk ▸ hk)
      · rw [if_neg hpk]
        refine ih ?_ htail
        unfold keysNodup at hnd ⊢
        rw [List.map_cons, List.nodup_cons] at hnd
        exact hnd.2

/-! ### Cancel-before-remove machinery -/

theorem cbrAux_mono (m : ConnMap) (c c' : List Nat) (evs : List RegEvent)
    (hsub : ∀ t, t ∈ c → t ∈ c') (h : cbrAux m c evs = true) :
    cbrAux m c' evs = true := by
  induction evs generalizing c c' with
  | nil => rfl
  | cons ev rest ih =>
    cases ev with
    | cancelTimer t =>
      exact ih (t :: c) (t :: c')
        (fun u hu => by
          rcases List.mem_cons.mp hu with rfl | hu
          · exact List.mem_cons_self _ _
          · exact List.mem_cons_of_mem _ (hsub u hu)) h
    | startTimer t => exact ih c c' hsub h
    | forceCleanup x => exact ih c c' hsub h
    | removeEntry k =>
      rw [cbrAux_remove, Bool.and_eq_true] at h ⊢
      refine ⟨?_, ih c c' hsub h.2⟩
      cases htm : (lookupEntry m k).bind (fun e => e.cleanup_timer) with
      | none => rfl
      | some t =>
        rw [htm] at h
        have ht := h.1
        simp only [decide_eq_true_eq] at ht ⊢
        exact hsub t ht

theorem cbrAux_append (m : ConnMap) (c : List Nat) (e1 e2 : List RegEvent)
    (h1 : cbrAux m c e1 = true) (h2 : cbrAux m c e2 = true) :
    cbrAux m c (e1 ++ e2) = true := by
  induction e1 generalizing c with
  | nil => exact h2
  | cons ev rest ih =>
    cases ev with
    | cancelTimer t =>
      exact ih (t :: c) h1
        (cbrAux_mono m c (t :: c) e2 (fun u hu => List.mem_cons_of_mem _ hu) h2)
    | startTimer t => exact ih c h1 h2
    | forceCleanup x => exact ih c h1 h2
    | removeEntry k =>
      rw [List.cons_append, cbrAux_remove, Bool.and_eq_true]
      rw [cbrAux_remove, Bool.and_eq_true] at h1
      exact ⟨h1.1, ih c h1.2 h2⟩

theorem cbrAux_no_removes (m : ConnMap) (c : List Nat) (evs : List RegEvent)
    (h : ∀ k, ¬ RegEvent.removeEntry k ∈ evs) : cbrAux m c evs = true := by
  induction evs generalizing c with
  | nil => rfl
  | cons ev rest ih =>
    have hrest : ∀ k, ¬ RegEvent.removeEntry k ∈ rest := fun k hk =>
      h k (List.mem_cons_of_mem _ hk)
    cases ev with
    | cancelTimer t => exact ih (t :: c) hrest
    | startTimer t => exact ih c hrest
    | forceCleanup x => exact ih c hrest
    | removeEntry k => exact absurd (List.mem_cons_self _ _) (h k)

theorem SubMap.rfl' (m : ConnMap) : SubMap m m := fun _ _ h => h

theorem SubMap_eraseKey (m : ConnMap) (k : String) : SubMap (eraseKey m k) m := by
  intro k' e h
  rw [lookupEntry_eraseKey] at h
  by_cases hk : k' = k
  · rw [if_pos hk] at h; cases h
  · rw [if_neg hk] at h; exact h

theorem SubMap_removeConnection (m : ConnMap) (k : String) :
    SubMap (removeConnection m k).1 m := by
  unfold removeConnection
  cases hl : lookupEntry m k with
  | none => exact SubMap.rfl' m
  | some e => exact SubMap_eraseKey m k

theorem SubMap.trans' {m1 m2 m3 : ConnMap} (h12 : SubMap m1 m2)
    (h23 : SubMap m2 m3) : SubMap m1 m3 :=
  fun k e h => h23 k e (h12 k e h)

theorem cbr_removeConnection (m m₀ : ConnMap) (k : String) (c : List Nat)
    (hsub : SubMap m m₀) : cbrAux m₀ c (removeConnection m k).2 = true := by
  unfold removeConnection
  cases hl : lookupEntry m k with
  | none => rfl
  | some e =>
    have hl₀ : lookupEntry m₀ k = some e := hsub k e hl
    have hshape : (match some e with
        | none => (m, ([] : List RegEvent))
        | some e =>
          (eraseKey m k,
            (match e.cleanup_timer with
              | some t => [RegEvent.cancelTimer t]
              | none => []) ++ [RegEvent.removeEntry k])).2 =
        ((match e.cleanup_timer with
          | some t => [RegEvent.cancelTimer t]
          | none => []) ++ [RegEvent.removeEntry k]) := rfl
    rw [hshape]
    cases htm : e.cleanup_timer with
    | none =>
      simp only [List.nil_append]
      rw [cbrAux_remove, hl₀]
      simp [htm, cbrAux_nil]
    | some t =>
      simp only [List.singleton_append]
      rw [cbrAux_cancel, cbrAux_remove, hl₀]
      simp [htm, cbrAux_nil]

theorem SubMap_removeMany (m : ConnMap) (ks : List String) :
    SubMap (removeMany m ks).1 m := by
  induction ks generalizing m with
  | nil => exact SubMap.rfl' m
  | cons k rest ih =>
    unfold removeMany
    exact SubMap.trans' (ih (removeConnection m k).1) (SubMap_removeConnection m k)

theorem cbr_removeMany (m m₀ : ConnMap) (ks : List String) (c : List Nat)
    (hsub : SubMap m m₀) : cbrAux m₀ c (removeMany m ks).2 = true := by
  induction ks generalizing m c with
  | nil => rfl
  | cons k rest ih =>
    unfold removeMany
    exact cbrAux_append m₀ c _ _ (cbr_removeConnection m m₀ k c hsub)
      (ih (removeConnection m k).1 c
        (SubMap.trans' (SubMap_removeConnection m k) hsub))

theorem concatAll_cons {α : Type} (c : List α) (cs : List (List α)) :
    concatAll (c :: cs) = c ++ concatAll cs := rfl

theorem cancelsIn_cancel (t : Nat) (r : List RegEvent) :
    cancelsIn (RegEvent.cancelTimer t :: r) = t :: cancelsIn r := rfl

theorem cancelsIn_start (t : Nat) (r : List RegEvent) :
    cancelsIn (RegEvent.startTimer t :: r) = cancelsIn r := rfl

theorem cancelsIn_force (x : Nat) (r : List RegEvent) :
    cancelsIn (RegEvent.forceCleanup x :: r) = cancelsIn r := rfl

theorem cancelsIn_removeEv (k : String) (r : List RegEvent) :
    cancelsIn (RegEvent.removeEntry k :: r) = cancelsIn r := rfl

theorem cancelsIn_append (a b : List RegEvent) :
    cancelsIn (a ++ b) = cancelsIn a ++ cancelsIn b := by
  induction a with
  | nil => rfl
  | cons ev rest ih =>
    cases ev <;>
      simp only [List.cons_append, cancelsIn_cancel, cancelsIn_start,
        cancelsIn_force, cancelsIn_removeEv, ih, List.cons_append]

theorem cbrAux_append_strong (m : ConnMap) (c : List Nat) (e1 e2 : List RegEvent)
    (h1 : cbrAux m c e1 = true) (h2 : cbrAux m (cancelsIn e1 ++ c) e2 = true) :
    cbrAux m c (e1 ++ e2) = true := by
  induction e1 generalizing c with
  | nil => simpa using h2
  | cons ev rest ih =>
    cases ev with
    | cancelTimer t =>
      rw [List.cons_append, cbrAux_cancel]
      rw [cbrAux_cancel] at h1
      refine ih (t :: c) h1 ?_
      refine cbrAux_mono m ((t :: cancelsIn rest) ++ c) (cancelsIn rest ++ (t :: c)) e2 ?_
        (by rw [← cancelsIn_cancel]; exact h2)
      intro u hu
      rcases List.mem_append.mp hu with hu | hu
      · rcases List.mem_cons.mp hu with rfl | hu
        · exact List.mem_append.mpr (Or.inr (List.mem_cons_self _ _))
        · exact List.mem_append.mpr (Or.inl hu)
      · exact List.mem_append.mpr (Or.inr (List.mem_cons_of_mem _ hu))
    | startTimer t =>
      rw [List.cons_append, cbrAux_start]
      rw [cbrAux_start] at h1
      exact ih c h1 (by rw [← cancelsIn_start t rest]; exact h2)
    | forceCleanup x =>
      rw [List.cons_append, cbrAux_force]
      rw [cbrAux_force] at h1
      exact ih c h1 (by rw [← cancelsIn_force x rest]; exact h2)
    | removeEntry k =>
      rw [List.cons_append, cbrAux_remove, Bool.and_eq_true]
      rw [cbrAux_remove, Bool.and_eq_true] at h1
      exact ⟨h1.1, ih c h1.2 (by rw [← cancelsIn_removeEv k rest]; exact h2)⟩

theorem mem_of_lookupEntry (m : ConnMap) (k : String) (e : ConnEntry)
    (h : lookupEntry m k = some e) : (k, e) ∈ m := by
  unfold lookupEntry at h
  cases hf : List.find? (fun p => p.1 == k) m with
  | none => rw [hf] at h; cases h
  | some pr =>
    rw [hf] at h
    have h2 : pr.2 = e := Option.some.inj h
    have hpk : (pr.1 == k) = true := by
      have h' := List.find?_some hf
      simpa using h'
    have hpr : pr = (k, e) := by
      cases pr
      simp only [Prod.mk.injEq]
      exact ⟨beq_iff_eq.mp hpk, h2⟩
    exact hpr ▸ List.mem_of_find?_eq_some hf

theorem cleanupAllEntry_no_removes (e : ConnEntry) (k : String) :
    ¬ RegEvent.removeEntry k ∈ cleanupAllEntry e := by
  unfold cleanupAllEntry
  cases e.cleanup_timer <;> cases e.weak_ref <;> simp

theorem concat_cleanupAll_no_removes (m : ConnMap) (k : String) :
    ¬ RegEvent.removeEntry k ∈ concatAll (m.map (fun p => cleanupAllEntry p.2)) := by
  induction m with
  | nil => simp [concatAll]
  | cons p rest ih =>
    rw [List.map_cons, concatAll_cons]
    intro hmem
    rcases List.mem_append.mp hmem with hmem | hmem
    · exact cleanupAllEntry_no_removes p.2 k hmem
    · exact ih hmem

theorem mem_cancelsIn_cleanupAllEvents (m : ConnMap) (k : String) (e : ConnEntry)
    (t : Nat) (hmem : (k, e) ∈ m) (htm : e.cleanup_timer = some t) :
    t ∈ cancelsIn (concatAll (m.map (fun p => cleanupAllEntry p.2))) := by
  induction m with
  | nil => cases hmem
  | cons p rest ih =>
    rw [List.map_cons, concatAll_cons, cancelsIn_append, List.mem_append]
    rcases List.mem_cons.mp hmem with heq | htail
    · left
      rw [← heq]
      unfold cleanupAllEntry
      rw [htm]
      cases e.weak_ref <;> simp [cancelsIn_append, cancelsIn_cancel, cancelsIn_force]
    · right
      exact ih htail

theorem cbr_removes_of_cancelled (m₀ : ConnMap) (cancelled : List Nat)
    (ks : List String)
    (h : ∀ k, k ∈ ks → ∀ t,
      (lookupEntry m₀ k).bind (fun e => e.cleanup_timer) = some t → t ∈ cancelled) :
    cbrAux m₀ cancelled (ks.map RegEvent.removeEntry) = true := by
  induction ks with
  | nil => rfl
  | cons k rest ih =>
    rw [List.map_cons, cbrAux_remove, Bool.and_eq_true]
    constructor
    · cases htm : (lookupEntry m₀ k).bind (fun e => e.cleanup_timer) with
      | none => rfl
      | some t =>
        simpa using h k (List.mem_cons_self _ _) t htm
    · exact ih (fun k' hk' => h k' (List.mem_cons_of_mem _ hk'))

theorem resetConnectionTimer_no_removes (m : ConnMap) (k : String) (fresh : Nat)
    (k' : String) :
    ¬ RegEvent.removeEntry k' ∈ (resetConnectionTimer m k fresh).2 := by
  unfold resetConnectionTimer
  cases hl : lookupEntry m k with
  | none => simp
  | some e => cases htm : e.cleanup_timer <;> simp [htm]

theorem removeConnection_fst (m : ConnMap) (k : String) :
    (removeConnection m k).1 =
      if containsKey m k = true then eraseKey m k else m := by
  unfold removeConnection
  rw [containsKey_eq_isSome]
  cases hl : lookupEntry m k <;> simp

theorem keysNodup_removeConnection (m : ConnMap) (k : String) (h : keysNodup m) :
    keysNodup (removeConnection m k).1 := by
  rw [removeConnection_fst]
  by_cases hc : containsKey m k = true
  · rw [if_pos hc]; exact keysNodup_eraseKey m k h
  · rw [if_neg hc]; exact h

theorem keysNodup_removeMany (m : ConnMap) (ks : List String) (h : keysNodup m) :
    keysNodup (removeMany m ks).1 := by
  induction ks generalizing m with
  | nil => exact h
  | cons k rest ih =>
    unfold removeMany
    exact ih (removeConnection m k).1 (keysNodup_removeConnection m k h)

theorem keysNodup_resetConnectionTimer (m : ConnMap) (k : String) (fresh : Nat)
    (h : keysNodup m) : keysNodup (resetConnectionTimer m k fresh).1 := by
  unfold resetConnectionTimer
  cases hl : lookupEntry m k with
  | none => exact h
  | some e => exact keysNodup_setEntry m k _ h

theorem containsKey_removeConnection_self (m : ConnMap) (k : String) :
    containsKey (removeConnection m k).1 k = false := by
  rw [removeConnection_fst]
  by_cases hc : containsKey m k = true
  · rw [if_pos hc, containsKey_eq_isSome, lookupEntry_eraseKey]
    simp
  · rw [if_neg hc]
    cases hb : containsKey m k
    · rfl
    · exact absurd hb hc

theorem bool_eq_false {b : Bool} (h : ¬ b = true) : b = false := by
  cases b
  · rfl
  · exact absurd rfl h

theorem registerConnection_fst (m : ConnMap) (k : String) (ctx : Nat)
    (tmo now : Int) (fresh : Nat) :
    (registerConnection m k ctx tmo now fresh).1 =
      (resetConnectionTimer
        ((if containsKey m k then removeConnection m k else (m, [])).1 ++
          [(k, (⟨some ctx, now, tmo, none⟩ : ConnEntry))]) k fresh).1 := rfl

theorem registerConnection_snd (m : ConnMap) (k : String) (ctx : Nat)
    (tmo now : Int) (fresh : Nat) :
    (registerConnection m k ctx tmo now fresh).2 =
      (if containsKey m k then removeConnection m k else (m, [])).2 ++
      (resetConnectionTimer
        ((if containsKey m k then removeConnection m k else (m, [])).1 ++
          [(k, (⟨some ctx, now, tmo, none⟩ : ConnEntry))]) k fresh).2 := rfl

theorem keysNodup_registerConnection (m : ConnMap) (k : String) (ctx : Nat)
    (tmo now : Int) (fresh : Nat) (h : keysNodup m) :
    keysNodup (registerConnection m k ctx tmo now fresh).1 := by
  rw [registerConnection_fst]
  apply keysNodup_resetConnectionTimer
  by_cases hc : containsKey m k = true
  · rw [if_pos hc]
    exact keysNodup_append_single _ _ _
      (keysNodup_removeConnection m k h)
      (by rw [removeConnection_fst, if_pos hc]; exact not_mem_keys_eraseKey m k)
  · rw [if_neg hc]
    exact keysNodup_append_single _ _ _ h
      (not_mem_keys_of_not_containsKey m k (bool_eq_false hc))

theorem cbr_registerConnection (m : ConnMap) (k : String) (ctx : Nat)
    (tmo now : Int) (fresh : Nat) :
    cancelsBeforeRemoves m (registerConnection m k ctx tmo now fresh).2 = true := by
  unfold cancelsBeforeRemoves
  rw [registerConnection_snd]
  apply cbrAux_append
  · by_cases hc : containsKey m k = true
    · rw [if_pos hc]
      exact cbr_removeConnection m m k [] (SubMap.rfl' m)
    · rw [if_neg hc]
      rfl
  · exact cbrAux_no_removes m [] _
      (fun k' => resetConnectionTimer_no_removes _ k fresh k')

theorem lookupEntry_registerConnection_self (m : ConnMap) (k : String) (ctx : Nat)
    (tmo now : Int) (fresh : Nat) :
    lookupEntry (registerConnection m k ctx tmo now fresh).1 k =
      some ⟨some ctx, now, tmo, some fresh⟩ := by
  rw [registerConnection_fst]
  have hc1 : containsKey
      (if containsKey m k then removeConnection m k else (m, [])).1 k = false := by
    by_cases hc : containsKey m k = true
    · rw [if_pos hc]
      exact containsKey_removeConnection_self m k
    · rw [if_neg hc]
      exact bool_eq_false hc
  have hl2 : lookupEntry
      ((if containsKey m k then removeConnection m k else (m, [])).1 ++
        [(k, (⟨some ctx, now, tmo, none⟩ : ConnEntry))]) k =
      some ⟨some ctx, now, tmo, none⟩ :=
    lookupEntry_append_right _ k _ hc1
  unfold resetConnectionTimer
  rw [hl2]
  exact lookupEntry_setEntry_self _ k _
    (by rw [containsKey_eq_isSome, hl2]; rfl)

theorem keysNodup_updateLastUsed (m : ConnMap) (k : String) (now : Int)
    (fresh : Nat) (h : keysNodup m) : keysNodup (updateLastUsed m k now fresh).1 := by
  unfold updateLastUsed
  cases hl : lookupEntry m k with
  | none => exact h
  | some e =>
    exact keysNodup_resetConnectionTimer _ k fresh (keysNodup_setEntry m k _ h)

theorem cbr_updateLastUsed (m : ConnMap) (k : String) (now : Int) (fresh : Nat) :
    cancelsBeforeRemoves m (updateLastUsed m k now fresh).2 = true := by
  unfold cancelsBeforeRemoves updateLastUsed
  cases hl : lookupEntry m k with
  | none => rfl
  | some e =>
    exact cbrAux_no_removes m [] _
      (fun k' => resetConnectionTimer_no_removes _ k fresh k')

theorem cbr_cleanupAll (m : ConnMap) :
    cancelsBeforeRemoves m (cleanupAll m).2 = true := by
  unfold cancelsBeforeRemoves
  have hsnd : (cleanupAll m).2 =
      concatAll (m.map (fun p => cleanupAllEntry p.2)) ++
        m.map (fun p => RegEvent.removeEntry p.1) := rfl
  rw [hsnd]
  apply cbrAux_append_strong
  · exact cbrAux_no_removes m [] _ (fun k => concat_cleanupAll_no_removes m k)
  · have hmap : m.map (fun p => RegEvent.removeEntry p.1) =
        (m.map (fun p => p.1)).map RegEvent.removeEntry := by
      rw [List.map_map]
      rfl
    rw [hmap]
    apply cbr_removes_of_cancelled
    intro k hk t hbind
    cases hl : lookupEntry m k with
    | none => rw [hl] at hbind; cases hbind
    | some e =>
      rw [hl] at hbind
      have htm : e.cleanup_timer = some t := by simpa using hbind
      have hmem := mem_of_lookupEntry m k e hl
      rw [List.append_nil]
      exact mem_cancelsIn_cleanupAllEvents m k e t hmem htm

theorem mem_force_cleanupAllEntry (e : ConnEntry) (ctx : Nat)
    (hw : e.weak_ref = some ctx) :
    RegEvent.forceCleanup ctx ∈ cleanupAllEntry e := by
  unfold cleanupAllEntry
  rw [hw]
  cases e.cleanup_timer <;> simp

theorem mem_force_concatAll (m : ConnMap) (k : String) (e : ConnEntry) (ctx : Nat)
    (hmem : (k, e) ∈ m) (hw : e.weak_ref = some ctx) :
    RegEvent.forceCleanup ctx ∈ concatAll (m.map (fun p => cleanupAllEntry p.2)) := by
  induction m with
  | nil => cases hmem
  | cons p rest ih =>
    rw [List.map_cons, concatAll_cons]
    rcases List.mem_cons.mp hmem with heq | htail
    · refine List.mem_append.mpr (Or.inl ?_)
      rw [← heq]
      exact mem_force_cleanupAllEntry e ctx hw
    · exact List.mem_append.mpr (Or.inr (ih htail))

theorem mem_force_cleanupAll (m : ConnMap) (k : String) (e : ConnEntry) (ctx : Nat)
    (hmem : (k, e) ∈ m) (hw : e.weak_ref = some ctx) :
    RegEvent.forceCleanup ctx ∈ (cleanupAll m).2 := by
  have hsnd : (cleanupAll m).2 =
      concatAll (m.map (fun p => cleanupAllEntry p.2)) ++
        m.map (fun p => RegEvent.removeEntry p.1) := rfl
  rw [hsnd]
  exact List.mem_append.mpr (Or.inl (mem_force_concatAll m k e ctx hmem hw))

theorem cleanupByTimer_of_none (m : ConnMap) (k : String) (now : Int)
    (hl : lookupEntry m k = none) : cleanupByTimer m k now = (m, []) := by
  unfold cleanupByTimer
  rw [hl]

theorem cleanupByTimer_of_dead (m : ConnMap) (k : String) (now : Int)
    (e : ConnEntry) (hl : lookupEntry m k = some e) (hw : e.weak_ref = none) :
    cleanupByTimer m k now = (m, []) := by
  unfold cleanupByTimer
  rw [hl]
  show (match e.weak_ref with
    | none => (m, ([] : List RegEvent))
    | some ctx =>
      if now - e.last_used ≥ e.timeout then
        ((removeConnection m k).1, RegEvent.forceCleanup ctx :: (removeConnection m k).2)
      else (m, [])) = (m, [])
  rw [hw]

theorem cleanupByTimer_of_live (m : ConnMap) (k : String) (now : Int)
    (e : ConnEntry) (ctx : Nat) (hl : lookupEntry m k = some e)
    (hw : e.weak_ref = some ctx) :
    cleanupByTimer m k now =
      if now - e.last_used ≥ e.timeout then
        ((removeConnection m k).1, RegEvent.forceCleanup ctx :: (removeConnection m k).2)
      else (m, []) := by
  unfold cleanupByTimer
  rw [hl]
  show (match e.weak_ref with
    | none => (m, ([] : List RegEvent))
    | some ctx =>
      if now - e.last_used ≥ e.timeout then
        ((removeConnection m k).1, RegEvent.forceCleanup ctx :: (removeConnection m k).2)
      else (m, [])) = _
  rw [hw]

theorem updateLastUsed_of_some (m : ConnMap) (k : String) (now : Int)
    (fresh : Nat) (e : ConnEntry) (hl : lookupEntry m k = some e) :
    updateLastUsed m k now fresh =
      resetConnectionTimer (setEntry m k { e with last_used := now }) k fresh := by
  unfold updateLastUsed
  rw [hl]

theorem resetConnectionTimer_of_some (m : ConnMap) (k : String) (fresh : Nat)
    (e : ConnEntry) (hl : lookupEntry m k = some e) :
    resetConnectionTimer m k fresh =
      (setEntry m k { e with cleanup_timer := some fresh },
       (match e.cleanup_timer with
        | some t => [RegEvent.cancelTimer t]
        | none => []) ++ [RegEvent.startTimer fresh]) := by
  unfold resetConnectionTimer
  rw [hl]

theorem keysNodup_cleanupByTimer (m : ConnMap) (k : String) (now : Int)
    (h : keysNodup m) : keysNodup (cleanupByTimer m k now).1 := by
  cases hl : lookupEntry m k with
  | none => rw [cleanupByTimer_of_none m k now hl]; exact h
  | some e =>
    cases hw : e.weak_ref with
    | none => rw [cleanupByTimer_of_dead m k now e hl hw]; exact h
    | some ctx =>
      rw [cleanupByTimer_of_live m k now e ctx hl hw]
      by_cases hcond : now - e.last_used ≥ e.timeout
      · rw [if_pos hcond]
        exact keysNodup_removeConnection m k h
      · rw [if_neg hcond]
        exact h

theorem cbr_cleanupByTimer (m : ConnMap) (k : String) (now : Int) :
    cancelsBeforeRemoves m (cleanupByTimer m k now).2 = true := by
  unfold cancelsBeforeRemoves
  cases hl : lookupEntry m k with
  | none => rw [cleanupByTimer_of_none m k now hl]; rfl
  | some e =>
    cases hw : e.weak_ref with
    | none => rw [cleanupByTimer_of_dead m k now e hl hw]; rfl
    | some ctx =>
      rw [cleanupByTimer_of_live m k now e ctx hl hw]
      by_cases hcond : now - e.last_used ≥ e.timeout
      · rw [if_pos hcond]
        show cbrAux m []
          (RegEvent.forceCleanup ctx :: (removeConnection m k).2) = true
        rw [cbrAux_force]
        exact cbr_removeConnection m m k [] (SubMap.rfl' m)
      · rw [if_neg hcond]
        rfl

end Radkit

namespace Radkit

/-- C1 (counterexample): the claim says `_last_recv_window` and
`_command_response` are also cleared at the start of `receive()`; starting
from a state where both hold stale values, the `receive()` prologue leaves
both of them untouched, so the claim as stated is false. -/
theorem receive_reset_not_all_cleared :
    ¬ (((receiveReset
          ⟨some [65], some [66], 3, 4, some [67], some [68]⟩).last_recv_window = none)
       ∧ ((receiveReset
          ⟨some [65], some [66], 3, 4, some [67], some [68]⟩).command_response = none)) := by
  decide

/-- C1 (amended): at the start of every `receive()` call, before any data
is read, `_matched_prompt` is reset to `None` (together with
`_matched_cmd_prompt`, `_matched_prompt_window` and `_window_count`), while
`_last_recv_window` and `_command_response` are left unchanged — they keep
their previous values until overwritten during the read loop. -/
theorem receive_reset_fields (s : CliSessionState) :
    (receiveReset s).matched_prompt = none
    ∧ (receiveReset s).matched_cmd_prompt = none
    ∧ (receiveReset s).matched_prompt_window = 0
    ∧ (receiveReset s).window_count = 0
    ∧ (receiveReset s).last_recv_window = s.last_recv_window
    ∧ (receiveReset s).command_response = s.command_response := by
  refine ⟨rfl, rfl, rfl, rfl, rfl, rfl⟩

/-- C10: with `remove_prompts` set, the first and last lines of a command's
output are removed (and the rest stripped) only when the output contains a
newline and splits into more than two lines; any output with no newline, or
with at most two lines, is returned unchanged. -/
theorem format_stdout_spec :
    (∀ (rp : Bool) (s : List Char),
        (s.contains '\n' = false ∨ (pySplitlines s).length ≤ 2) →
        formatStdout rp s = s)
    ∧ (∀ (rp : Bool) (s : List Char),
        rp = true → s.contains '\n' = true → 2 < (pySplitlines s).length →
        formatStdout rp s =
          pyStrip (concatAll (((pySplitlines s).drop 1).dropLast))) := by
  constructor
  · intro rp s h
    unfold formatStdout
    by_cases hc : (rp && s.contains '\n') = true
    · rw [if_pos hc]
      rcases h with h | h
      · rw [h] at hc; simp at hc
      · rw [if_neg (by omega)]
    · rw [if_neg hc]
  · intro rp s hrp hnl hlen
    unfold formatStdout
    rw [if_pos (by rw [hrp, hnl]; rfl), if_pos hlen]

/-- C10 witness: concrete evaluations through `format_stdout_spec`. -/
theorem format_stdout_spec_witness :
    ((['a', '\n', 'b'].contains '\n' = false ∨ (pySplitlines ['a', '\n', 'b']).length ≤ 2)
      ∧ formatStdout true ['a', '\n', 'b'] = ['a', '\n', 'b'])
    ∧ (true = true ∧ ['a', '\n', 'b', '\n', 'c'].contains '\n' = true
        ∧ 2 < (pySplitlines ['a', '\n', 'b', '\n', 'c']).length
        ∧ formatStdout true ['a', '\n', 'b', '\n', 'c'] =
            pyStrip (concatAll (((pySplitlines ['a', '\n', 'b', '\n', 'c']).drop 1).dropLast))) :=
  ⟨⟨Or.inr (by decide),
    format_stdout_spec.1 true ['a', '\n', 'b'] (Or.inr (by decide))⟩,
   ⟨rfl, by decide, by decide,
    format_stdout_spec.2 true ['a', '\n', 'b', '\n', 'c'] rfl (by decide) (by decide)⟩⟩

/-- C2: every registry operation preserves "at most one entry per key"
(`keysNodup`), and in every operation's event trace each entry removal is
preceded by the cancellation of that entry's `cleanup_timer`
(`cancelsBeforeRemoves`, judged against the operation's pre-state). -/
theorem registry_unique_keys_and_timer_cancel :
    (∀ (m : ConnMap) (k : String) (ctx : Nat) (tmo now : Int) (fresh : Nat),
        keysNodup m →
        keysNodup (registerConnection m k ctx tmo now fresh).1
        ∧ cancelsBeforeRemoves m (registerConnection m k ctx tmo now fresh).2 = true)
    ∧ (∀ (m : ConnMap) (k : String) (now : Int) (fresh : Nat),
        keysNodup m →
        keysNodup (updateLastUsed m k now fresh).1
        ∧ cancelsBeforeRemoves m (updateLastUsed m k now fresh).2 = true)
    ∧ (∀ (m : ConnMap) (now : Int),
        keysNodup m →
        keysNodup (cleanupStale m now).1
        ∧ cancelsBeforeRemoves m (cleanupStale m now).2 = true)
    ∧ (∀ (m : ConnMap) (k : String),
        keysNodup m →
        keysNodup (cleanupCallback m k).1
        ∧ cancelsBeforeRemoves m (cleanupCallback m k).2 = true)
    ∧ (∀ (m : ConnMap) (k : String) (now : Int),
        keysNodup m →
        keysNodup (cleanupByTimer m k now).1
        ∧ cancelsBeforeRemoves m (cleanupByTimer m k now).2 = true)
    ∧ (∀ (m : ConnMap),
        keysNodup m →
        keysNodup (cleanupAll m).1
        ∧ cancelsBeforeRemoves m (cleanupAll m).2 = true)
    ∧ (∀ (m : ConnMap) (k : String),
        keysNodup m →
        keysNodup (removeConnection m k).1
        ∧ cancelsBeforeRemoves m (removeConnection m k).2 = true) := by
  refine ⟨?_, ?_, ?_, ?_, ?_, ?_, ?_⟩
  · intro m k ctx tmo now fresh h
    exact ⟨keysNodup_registerConnection m k ctx tmo now fresh h,
      cbr_registerConnection m k ctx tmo now fresh⟩
  · intro m k now fresh h
    exact ⟨keysNodup_updateLastUsed m k now fresh h, cbr_updateLastUsed m k now fresh⟩
  · intro m now h
    unfold cleanupStale
    exact ⟨keysNodup_removeMany m _ h, cbr_removeMany m m _ [] (SubMap.rfl' m)⟩
  · intro m k h
    unfold cleanupCallback
    by_cases hc : containsKey m k = true
    · rw [if_pos hc]
      exact ⟨keysNodup_removeConnection m k h,
        cbr_removeConnection m m k [] (SubMap.rfl' m)⟩
    · rw [if_neg hc]
      exact ⟨h, rfl⟩
  · intro m k now h
    exact ⟨keysNodup_cleanupByTimer m k now h, cbr_cleanupByTimer m k now⟩
  · intro m h
    refine ⟨?_, cbr_cleanupAll m⟩
    unfold keysNodup
    exact List.nodup_nil
  · intro m k h
    exact ⟨keysNodup_removeConnection m k h,
      cbr_removeConnection m m k [] (SubMap.rfl' m)⟩

/-- C2 witness: the invariants evaluated on a concrete one-entry registry. -/
theorem registry_unique_keys_and_timer_cancel_witness :
    keysNodup [("a", (⟨some 1, 0, 10, some 2⟩ : ConnEntry))]
    ∧ keysNodup
        (registerConnection [("a", (⟨some 1, 0, 10, some 2⟩ : ConnEntry))] "a" 3 20 5 6).1
    ∧ cancelsBeforeRemoves [("a", (⟨some 1, 0, 10, some 2⟩ : ConnEntry))]
        (registerConnection [("a", (⟨some 1, 0, 10, some 2⟩ : ConnEntry))] "a" 3 20 5 6).2 = true
    ∧ keysNodup (cleanupStale [("a", (⟨some 1, 0, 10, some 2⟩ : ConnEntry))] 100).1
    ∧ cancelsBeforeRemoves [("a", (⟨some 1, 0, 10, some 2⟩ : ConnEntry))]
        (cleanupStale [("a", (⟨some 1, 0, 10, some 2⟩ : ConnEntry))] 100).2 = true
    ∧ cancelsBeforeRemoves [("a", (⟨some 1, 0, 10, some 2⟩ : ConnEntry))]
        (cleanupAll [("a", (⟨some 1, 0, 10, some 2⟩ : ConnEntry))]).2 = true := by
  have h := registry_unique_keys_and_timer_cancel
  have hnd : keysNodup [("a", (⟨some 1, 0, 10, some 2⟩ : ConnEntry))] := by decide
  exact ⟨hnd,
    (h.1 _ "a" 3 20 5 6 hnd).1,
    (h.1 _ "a" 3 20 5 6 hnd).2,
    (h.2.2.1 _ 100 hnd).1,
    (h.2.2.1 _ 100 hnd).2,
    (h.2.2.2.2.2.1 _ hnd).2⟩

/-- C4: the per-connection idle timer destroys an entry only when, at the
moment it fires, at least `timeout` seconds passed since `last_used`
(otherwise the registry is left untouched, so a connection refreshed within
every timeout interval is never destroyed); `update_last_used` rewrites
`last_used` to the current time and arms a fresh timer; and `cleanup_all`
empties the map after force-cleaning every still-referenced context. -/
theorem registry_idle_timer_semantics :
    (∀ (m : ConnMap) (k : String) (now : Int) (e : ConnEntry) (ctx : Nat),
        lookupEntry m k = some e → e.weak_ref = some ctx →
        now - e.last_used < e.timeout →
        cleanupByTimer m k now = (m, []))
    ∧ (∀ (m : ConnMap) (k : String) (now : Int),
        (cleanupByTimer m k now).2 ≠ [] →
        ∃ e, lookupEntry m k = some e ∧ now - e.last_used ≥ e.timeout)
    ∧ (∀ (m : ConnMap) (k : String) (now : Int) (fresh : Nat) (e : ConnEntry),
        lookupEntry m k = some e →
        lookupEntry (updateLastUsed m k now fresh).1 k =
          some { e with last_used := now, cleanup_timer := some fresh }
        ∧ RegEvent.startTimer fresh ∈ (updateLastUsed m k now fresh).2)
    ∧ (∀ (m : ConnMap),
        (cleanupAll m).1 = []
        ∧ ∀ (k : String) (e : ConnEntry) (ctx : Nat),
            (k, e) ∈ m → e.weak_ref = some ctx →
            RegEvent.forceCleanup ctx ∈ (cleanupAll m).2) := by
  refine ⟨?_, ?_, ?_, ?_⟩
  · intro m k now e ctx hl hw hlt
    rw [cleanupByTimer_of_live m k now e ctx hl hw]
    rw [if_neg (not_le.mpr hlt)]
  · intro m k now hne
    cases hl : lookupEntry m k with
    | none =>
      rw [cleanupByTimer_of_none m k now hl] at hne
      exact absurd rfl hne
    | some e =>
      cases hw : e.weak_ref with
      | none =>
        rw [cleanupByTimer_of_dead m k now e hl hw] at hne
        exact absurd rfl hne
      | some ctx =>
        rw [cleanupByTimer_of_live m k now e ctx hl hw] at hne
        by_cases hcond : now - e.last_used ≥ e.timeout
        · exact ⟨e, rfl, hcond⟩
        · rw [if_neg hcond] at hne
          exact absurd rfl hne
  · intro m k now fresh e hl
    have hck : containsKey m k = true := by
      rw [containsKey_eq_isSome, hl]; rfl
    rw [updateLastUsed_of_some m k now fresh e hl]
    have hl1 : lookupEntry (setEntry m k { e with last_used := now }) k =
        some { e with last_used := now } :=
      lookupEntry_setEntry_self m k _ hck
    rw [resetConnectionTimer_of_some _ k fresh _ hl1]
    constructor
    · exact lookupEntry_setEntry_self _ k _
        (by rw [containsKey_eq_isSome, hl1]; rfl)
    · exact List.mem_append.mpr (Or.inr (List.mem_singleton.mpr rfl))
  · intro m
    exact ⟨rfl, fun k e ctx hm hw => mem_force_cleanupAll m k e ctx hm hw⟩

/-- C4 witness: the timer/refresh/exit behaviour on a concrete registry. -/
theorem registry_idle_timer_semantics_witness :
    lookupEntry [("k", (⟨some 7, 0, 10, some 3⟩ : ConnEntry))] "k" =
      some ⟨some 7, 0, 10, some 3⟩
    ∧ cleanupByTimer [("k", (⟨some 7, 0, 10, some 3⟩ : ConnEntry))] "k" 5 =
        ([("k", (⟨some 7, 0, 10, some 3⟩ : ConnEntry))], [])
    ∧ (cleanupByTimer [("k", (⟨some 7, 0, 10, some 3⟩ : ConnEntry))] "k" 20).2 ≠ []
    ∧ (∃ e, lookupEntry [("k", (⟨some 7, 0, 10, some 3⟩ : ConnEntry))] "k" = some e
        ∧ (20 : Int) - e.last_used ≥ e.timeout)
    ∧ lookupEntry
        (updateLastUsed [("k", (⟨some 7, 0, 10, some 3⟩ : ConnEntry))] "k" 6 4).1 "k" =
        some ⟨some 7, 6, 10, some 4⟩
    ∧ RegEvent.startTimer 4 ∈
        (updateLastUsed [("k", (⟨some 7, 0, 10, some 3⟩ : ConnEntry))] "k" 6 4).2
    ∧ (cleanupAll [("k", (⟨some 7, 0, 10, some 3⟩ : ConnEntry))]).1 = []
    ∧ RegEvent.forceCleanup 7 ∈
        (cleanupAll [("k", (⟨some 7, 0, 10, some 3⟩ : ConnEntry))]).2 := by
  have h := registry_idle_timer_semantics
  refine ⟨by decide, ?_, by decide, ?_, ?_, ?_, ?_, ?_⟩
  · exact h.1 _ "k" 5 ⟨some 7, 0, 10, some 3⟩ 7 (by decide) (by decide) (by decide)
  · exact h.2.1 _ "k" 20 (by decide)
  · exact (h.2.2.1 _ "k" 6 4 ⟨some 7, 0, 10, some 3⟩ (by decide)).1
  · exact (h.2.2.1 _ "k" 6 4 ⟨some 7, 0, 10, some 3⟩ (by decide)).2
  · exact (h.2.2.2 _).1
  · exact (h.2.2.2 _).2 "k" ⟨some 7, 0, 10, some 3⟩ 7 (by decide) (by decide)

/-- C5: the entry stored by registration is exactly the four-field record
`{weak_ref, last_used, timeout, cleanup_timer}` (with the freshly armed
timer), stored under the key `identity|service_serial|device_filter`, where
missing components default to the empty string. -/
theorem register_entry_shape_and_key :
    (∀ (m : ConnMap) (identity serviceSerial deviceFilter : Option String)
        (ctx : Nat) (tmo now : Int) (fresh : Nat),
        lookupEntry
          (contextRegister m identity serviceSerial deviceFilter ctx tmo now fresh).1
          (createConnectionKey identity serviceSerial deviceFilter) =
          some ⟨some ctx, now, tmo, some fresh⟩)
    ∧ createConnectionKey none none none = "||"
    ∧ createConnectionKey (some "id") (some "serial") (some "filt") = "id|serial|filt" := by
  refine ⟨?_, rfl, rfl⟩
  intro m identity serviceSerial deviceFilter ctx tmo now fresh
  exact lookupEntry_registerConnection_self m _ ctx tmo now fresh

theorem rxStep_ret_prompt (cfg : RxCfg) (st : RxState) (c r : List Nat)
    (h : rxStep cfg st c = RxStepOut.ret r) :
    (find_prompt cfg.search cfg.stdoutRe (windowOf cfg (st.buf ++ c))).isSome = true := by
  unfold rxStep rxStepCore at h
  by_cases hr : rxRetryHit cfg st (windowOf cfg (st.buf ++ c)) (st.windowCount + 1) = true
  · rw [if_pos hr] at h
    cases h
  · rw [if_neg hr] at h
    cases hfp : find_prompt cfg.search cfg.stdoutRe (windowOf cfg (st.buf ++ c)) with
    | none => rw [hfp] at h; cases h
    | some g => rfl

theorem rxPromptFound_cont_props (cfg : RxCfg) (st : RxState)
    (buf window g : List Nat) (st' : RxState)
    (h : rxPromptFound cfg st buf window g = RxStepOut.cont st') :
    st'.buf = buf ∧ (cfg.brtZero = true → st'.cmdPromptMatched = false) := by
  unfold rxPromptFound at h
  by_cases hbz : cfg.brtZero = true
  · rw [if_pos hbz] at h
    cases h
  · rw [if_neg hbz] at h
    injection h with h1
    subst h1
    exact ⟨rfl, fun hb => absurd hb hbz⟩

theorem rxStep_cont_props (cfg : RxCfg) (st : RxState) (c : List Nat)
    (st' : RxState) (h : rxStep cfg st c = RxStepOut.cont st') :
    st'.buf = st.buf ++ c ∧ (cfg.brtZero = true → st'.cmdPromptMatched = false) := by
  unfold rxStep rxStepCore at h
  by_cases hr : rxRetryHit cfg st (windowOf cfg (st.buf ++ c)) (st.windowCount + 1) = true
  · rw [if_pos hr] at h
    cases h
  · rw [if_neg hr] at h
    cases hfp : find_prompt cfg.search cfg.stdoutRe (windowOf cfg (st.buf ++ c)) with
    | none =>
      rw [hfp] at h
      injection h with h1
      subst h1
      exact ⟨rfl, fun _ => rfl⟩
    | some g =>
      rw [hfp] at h
      cases herr : rxErrored cfg st (windowOf cfg (st.buf ++ c)) with
      | some w =>
        rw [herr] at h
        have h' : (if w.isEmpty then
            rxPromptFound cfg st (st.buf ++ c) (windowOf cfg (st.buf ++ c)) g
          else RxStepOut.connFail w) = RxStepOut.cont st' := h
        by_cases hemp : w.isEmpty = true
        · rw [if_pos hemp] at h'
          exact rxPromptFound_cont_props cfg st _ _ g st' h'
        · rw [if_neg hemp] at h'
          cases h'
      | none =>
        rw [herr] at h
        have h' : rxPromptFound cfg st (st.buf ++ c) (windowOf cfg (st.buf ++ c)) g =
            RxStepOut.cont st' := h
        exact rxPromptFound_cont_props cfg st _ _ g st' h'

theorem rxRun_ret_prompt_aux (cfg : RxCfg) (hbz : cfg.brtZero = true) :
    ∀ (cs : List (List Nat)) (st : RxState), st.cmdPromptMatched = false →
      ∀ r, rxRun cfg st cs = RxFinal.ret r →
      ∃ k, k < cs.length ∧
        (find_prompt cfg.search cfg.stdoutRe
          (windowOf cfg (st.buf ++ concatAll (cs.take (k + 1))))).isSome = true := by
  intro cs
  induction cs with
  | nil =>
    intro st hcmd r h
    unfold rxRun at h
    rw [hcmd] at h
    simp at h
  | cons c cs ih =>
    intro st hcmd r h
    unfold rxRun at h
    cases hstep : rxStep cfg st c with
    | cont st' =>
      rw [hstep] at h
      obtain ⟨hbuf, hcmd'⟩ := rxStep_cont_props cfg st c st' hstep
      obtain ⟨k, hk, hp⟩ := ih st' (hcmd' hbz) r h
      refine ⟨k + 1, by simpa using Nat.succ_lt_succ hk, ?_⟩
      rw [List.take_succ_cons, concatAll_cons, ← List.append_assoc, ← hbuf]
      exact hp
    | ret r' =>
      rw [hstep] at h
      have hp := rxStep_ret_prompt cfg st c r' hstep
      refine ⟨0, by simp, ?_⟩
      rw [List.take_succ_cons, List.take_zero, concatAll_cons]
      show (find_prompt cfg.search cfg.stdoutRe
        (windowOf cfg (st.buf ++ (c ++ concatAll [])))).isSome = true
      rw [show concatAll ([] : List (List Nat)) = [] from rfl, List.append_nil]
      exact hp
    | connFail w => rw [hstep] at h; cases h
    | badAnswer => rw [hstep] at h; cases h

/-- C3: `receive_radkit` returns normally only after a `terminal_stdout_re`
pattern matches the current stripped window; with
`persistent_buffer_read_timeout == 0.0` the sanitized accumulated response
is returned immediately on that match; if a `terminal_stderr_re` pattern
matched some window first, the prompt match instead raises
`AnsibleConnectionFailure` carrying the errored window; and an error match
alone does not exit the loop — it is recorded and the loop keeps reading. -/
theorem receive_radkit_prompt_loop :
    (∀ (cfg : RxCfg), cfg.brtZero = true →
      ∀ (st : RxState) (cs : List (List Nat)) (r : List Nat),
        rxRun cfg (rxInit st) cs = RxFinal.ret r →
        ∃ k, k < cs.length ∧
          (find_prompt cfg.search cfg.stdoutRe
            (windowOf cfg (concatAll (cs.take (k + 1))))).isSome = true)
    ∧ (∀ (cfg : RxCfg) (st : RxState) (c g : List Nat),
        cfg.brtZero = true →
        rxRetryHit cfg st (windowOf cfg (st.buf ++ c)) (st.windowCount + 1) = false →
        find_prompt cfg.search cfg.stdoutRe (windowOf cfg (st.buf ++ c)) = some g →
        rxErrored cfg st (windowOf cfg (st.buf ++ c)) = none →
        rxStep cfg st c =
          RxStepOut.ret (cfg.sanitizeFn (cfg.stripFn (st.buf ++ c)) (some g)))
    ∧ (∀ (cfg : RxCfg) (st : RxState) (c w g : List Nat),
        rxRetryHit cfg st (windowOf cfg (st.buf ++ c)) (st.windowCount + 1) = false →
        find_prompt cfg.search cfg.stdoutRe (windowOf cfg (st.buf ++ c)) = some g →
        rxErrored cfg st (windowOf cfg (st.buf ++ c)) = some w →
        w.isEmpty = false →
        rxStep cfg st c = RxStepOut.connFail w)
    ∧ (∀ (cfg : RxCfg) (st : RxState) (c : List Nat),
        rxRetryHit cfg st (windowOf cfg (st.buf ++ c)) (st.windowCount + 1) = false →
        find_prompt cfg.search cfg.stdoutRe (windowOf cfg (st.buf ++ c)) = none →
        find_error cfg.search cfg.stderrRe (windowOf cfg (st.buf ++ c)) = true →
        ∃ st', rxStep cfg st c = RxStepOut.cont st'
          ∧ st'.erroredResponse = some (windowOf cfg (st.buf ++ c))) := by
  refine ⟨?_, ?_, ?_, ?_⟩
  · intro cfg hbz st cs r h
    obtain ⟨k, hk, hp⟩ := rxRun_ret_prompt_aux cfg hbz cs (rxInit st) rfl r h
    refine ⟨k, hk, ?_⟩
    show (find_prompt cfg.search cfg.stdoutRe
      (windowOf cfg (([] : List Nat) ++ concatAll (cs.take (k + 1))))).isSome = true
    rw [List.nil_append]
    show (find_prompt cfg.search cfg.stdoutRe
      (windowOf cfg (concatAll (cs.take (k + 1))))).isSome = true
    rw [← List.nil_append (concatAll (cs.take (k + 1)))]
    exact hp
  · intro cfg st c g hbz hretry hfp herr
    have hnr : ¬ rxRetryHit cfg st (windowOf cfg (st.buf ++ c))
        (st.windowCount + 1) = true := by
      rw [hretry]; exact Bool.false_ne_true
    unfold rxStep rxStepCore
    rw [if_neg hnr, hfp]
    show (match rxErrored cfg st (windowOf cfg (st.buf ++ c)) with
      | some w =>
        if w.isEmpty then
          rxPromptFound cfg st (st.buf ++ c) (windowOf cfg (st.buf ++ c)) g
        else RxStepOut.connFail w
      | none =>
        rxPromptFound cfg st (st.buf ++ c) (windowOf cfg (st.buf ++ c)) g) = _
    rw [herr]
    show rxPromptFound cfg st (st.buf ++ c) (windowOf cfg (st.buf ++ c)) g = _
    unfold rxPromptFound
    rw [if_pos hbz]
  · intro cfg st c w g hretry hfp herr hw
    have hnr : ¬ rxRetryHit cfg st (windowOf cfg (st.buf ++ c))
        (st.windowCount + 1) = true := by
      rw [hretry]; exact Bool.false_ne_true
    unfold rxStep rxStepCore
    rw [if_neg hnr, hfp]
    show (match rxErrored cfg st (windowOf cfg (st.buf ++ c)) with
      | some w =>
        if w.isEmpty then
          rxPromptFound cfg st (st.buf ++ c) (windowOf cfg (st.buf ++ c)) g
        else RxStepOut.connFail w
      | none =>
        rxPromptFound cfg st (st.buf ++ c) (windowOf cfg (st.buf ++ c)) g) = _
    rw [herr]
    show (if w.isEmpty then
        rxPromptFound cfg st (st.buf ++ c) (windowOf cfg (st.buf ++ c)) g
      else RxStepOut.connFail w) = _
    rw [if_neg (by rw [hw]; exact Bool.false_ne_true)]
  · intro cfg st c hretry hfp herrb
    have hnr : ¬ rxRetryHit cfg st (windowOf cfg (st.buf ++ c))
        (st.windowCount + 1) = true := by
      rw [hretry]; exact Bool.false_ne_true
    refine ⟨{ buf := st.buf ++ c
              handled := rxHandled cfg st (windowOf cfg (st.buf ++ c)) (st.windowCount + 1)
              erroredResponse := rxErrored cfg st (windowOf cfg (st.buf ++ c))
              matchedPrompt := st.matchedPrompt
              matchedPromptWindow := rxMpw cfg st (st.windowCount + 1)
              windowCount := st.windowCount + 1
              lastRecvWindow := some (windowOf cfg (st.buf ++ c))
              cmdPromptMatched := false
              commandResponse := st.commandResponse
              lastResponse := st.lastResponse }, ?_, ?_⟩
    · unfold rxStep rxStepCore
      rw [if_neg hnr, hfp]
    · show rxErrored cfg st (windowOf cfg (st.buf ++ c)) =
        some (windowOf cfg (st.buf ++ c))
      unfold rxErrored
      rw [herrb]
      simp

/-- C3 witness: the loop behaviour evaluated on concrete windows. -/
theorem receive_radkit_prompt_loop_witness :
    (rxCfgW.brtZero = true
      ∧ rxRun rxCfgW (rxInit rxStW) [[72, 35]] = RxFinal.ret [72, 35]
      ∧ ∃ k, k < ([[72, 35]] : List (List Nat)).length
          ∧ (find_prompt rxCfgW.search rxCfgW.stdoutRe
              (windowOf rxCfgW (concatAll (([[72, 35]] : List (List Nat)).take (k + 1))))).isSome = true)
    ∧ rxStep rxCfgW rxStW [72, 35] =
        RxStepOut.ret (rxCfgW.sanitizeFn (rxCfgW.stripFn (rxStW.buf ++ [72, 35])) (some [35]))
    ∧ rxStep rxCfgW rxStErrW [35] = RxStepOut.connFail [69]
    ∧ (∃ st', rxStep rxCfgW rxStW [69] = RxStepOut.cont st'
        ∧ st'.erroredResponse = some (windowOf rxCfgW (rxStW.buf ++ [69]))) := by
  have h := receive_radkit_prompt_loop
  refine ⟨⟨rfl, by decide, ?_⟩, ?_, ?_, ?_⟩
  · exact h.1 rxCfgW rfl rxStW [[72, 35]] [72, 35] (by decide)
  · exact h.2.1 rxCfgW rxStW [72, 35] [35] rfl (by decide) (by decide) (by decide)
  · exact h.2.2.1 rxCfgW rxStErrW [35] [69] [35] (by decide) (by decide) (by decide)
      (by decide)
  · exact h.2.2.2 rxCfgW rxStW [69] (by decide) (by decide) (by decide)

theorem outKind_rxStepCore (cfg : RxCfg) (st : RxState) (b1 b2 w : List Nat) :
    outKind (rxStepCore cfg st b1 w) = outKind (rxStepCore cfg st b2 w) := by
  unfold rxStepCore
  by_cases hr : rxRetryHit cfg st w (st.windowCount + 1) = true
  · rw [if_pos hr, if_pos hr]
  · rw [if_neg hr, if_neg hr]
    cases hfp : find_prompt cfg.search cfg.stdoutRe w with
    | none => rfl
    | some g =>
      cases herr : rxErrored cfg st w with
      | none =>
        dsimp only
        unfold rxPromptFound
        by_cases hbz : cfg.brtZero = true
        · rw [if_pos hbz, if_pos hbz]
          rfl
        · rw [if_neg hbz, if_neg hbz]
          rfl
      | some wq =>
        dsimp only
        by_cases hemp : wq.isEmpty = true
        · rw [if_pos hemp, if_pos hemp]
          unfold rxPromptFound
          by_cases hbz : cfg.brtZero = true
          · rw [if_pos hbz, if_pos hbz]
            rfl
          · rw [if_neg hbz, if_neg hbz]
            rfl
        · rw [if_neg hemp, if_neg hemp]

/-- C8: the scan window is exactly the (stripped) last `min(size, 512)`
bytes of the accumulated response — `offset = max(0, size - 512)` — and
two buffers with the same last-512-byte suffix produce the same window and
the same step outcome: bytes before the window can never cause (or
suppress) a prompt, error, or interactive-prompt match. -/
theorem receive_radkit_window_scan :
    (∀ buf : List Nat, (buf.drop (windowOffset buf)).length = min buf.length 512)
    ∧ (∀ (cfg : RxCfg) (b1 b2 : List Nat),
        b1.drop (windowOffset b1) = b2.drop (windowOffset b2) →
        windowOf cfg b1 = windowOf cfg b2)
    ∧ (∀ (cfg : RxCfg) (st : RxState) (c b2 : List Nat),
        windowOf cfg (st.buf ++ c) = windowOf cfg (b2 ++ c) →
        outKind (rxStep cfg st c) = outKind (rxStep cfg { st with buf := b2 } c)) := by
  refine ⟨?_, ?_, ?_⟩
  · intro buf
    unfold windowOffset
    by_cases h : buf.length > 512
    · rw [if_pos h, List.length_drop]
      omega
    · rw [if_neg h, List.drop_zero]
      omega
  · intro cfg b1 b2 h
    unfold windowOf
    rw [h]
  · intro cfg st c b2 h
    show outKind (rxStepCore cfg st (st.buf ++ c) (windowOf cfg (st.buf ++ c))) =
      outKind (rxStep cfg { st with buf := b2 } c)
    rw [h]
    exact outKind_rxStepCore cfg st (st.buf ++ c) (b2 ++ c) (windowOf cfg (b2 ++ c))

/-- C8 witness: the window bound and locality evaluated concretely. -/
theorem receive_radkit_window_scan_witness :
    (([4, 5] : List Nat).drop (windowOffset [4, 5])).length = min ([4, 5] : List Nat).length 512
    ∧ (([1, 2, 3] : List Nat).drop (windowOffset [1, 2, 3]) =
        ([1, 2, 3] : List Nat).drop (windowOffset [1, 2, 3])
      ∧ windowOf rxCfgW [1, 2, 3] = windowOf rxCfgW [1, 2, 3])
    ∧ (windowOf rxCfgW (rxStW.buf ++ [35]) = windowOf rxCfgW ([] ++ [35])
      ∧ outKind (rxStep rxCfgW rxStW [35]) =
          outKind (rxStep rxCfgW { rxStW with buf := [] } [35])) := by
  have h := receive_radkit_window_scan
  exact ⟨h.1 [4, 5],
    ⟨rfl, h.2.1 rxCfgW [1, 2, 3] [1, 2, 3] rfl⟩,
    ⟨rfl, h.2.2 rxCfgW rxStW [35] [] rfl⟩⟩

theorem connectAux_pauses (fails : Nat → Bool) (retries : Nat) (maxPause : Int) :
    ∀ (fuel attempt : Nat) (tp : Int) (i : Nat) (p : Int),
      ((connectAttemptsAux fails retries maxPause fuel attempt tp).2).get? i = some p →
      p = (2 : Int) ^ (attempt + i + 1) := by
  intro fuel
  induction fuel with
  | zero =>
    intro attempt tp i p h
    simp [connectAttemptsAux] at h
  | succ fuel ih =>
    intro attempt tp i p h
    unfold connectAttemptsAux at h
    by_cases hf : fails attempt = true
    · rw [if_pos hf] at h
      by_cases hstop : attempt = retries ∨ tp ≥ maxPause
      · rw [if_pos hstop] at h
        simp at h
      · rw [if_neg hstop] at h
        cases i with
        | zero =>
          rw [List.get?_cons_zero] at h
          have hp := Option.some.inj h
          have harith : attempt + 0 + 1 = attempt + 1 := by omega
          rw [harith]
          exact hp.symm
        | succ j =>
          rw [List.get?_cons_succ] at h
          have hp := ih (attempt + 1) (tp + 2 ^ (attempt + 1)) j p h
          have harith : attempt + 1 + j + 1 = attempt + (j + 1) + 1 := by omega
          rw [← harith]
          exact hp
    · rw [if_neg hf] at h
      simp at h

theorem connectAux_len (fails : Nat → Bool) (retries : Nat) (maxPause : Int) :
    ∀ (fuel attempt : Nat) (tp : Int), attempt ≤ retries →
      fuel = retries + 1 - attempt →
      (connectAttemptsAux fails retries maxPause fuel attempt tp).2.length ≤
        retries - attempt := by
  intro fuel
  induction fuel with
  | zero =>
    intro attempt tp hle hfuel
    omega
  | succ fuel ih =>
    intro attempt tp hle hfuel
    unfold connectAttemptsAux
    by_cases hf : fails attempt = true
    · rw [if_pos hf]
      by_cases hstop : attempt = retries ∨ tp ≥ maxPause
      · rw [if_pos hstop]
        simp
      · rw [if_neg hstop]
        have hlt : attempt < retries := by
          rcases Nat.lt_or_ge attempt retries with h | h
          · exact h
          · exact absurd (Or.inl (Nat.le_antisymm hle h)) hstop
        have := ih (attempt + 1) (tp + 2 ^ (attempt + 1)) (by omega) (by omega)
        simp only [List.length_cons]
        omega
    · rw [if_neg hf]
      simp

theorem connectAux_fail_all (fails : Nat → Bool) (retries : Nat) (maxPause : Int)
    (hall : ∀ i, fails i = true) :
    ∀ (fuel attempt : Nat) (tp : Int),
      (connectAttemptsAux fails retries maxPause fuel attempt tp).1 = false := by
  intro fuel
  induction fuel with
  | zero => intro attempt tp; rfl
  | succ fuel ih =>
    intro attempt tp
    unfold connectAttemptsAux
    rw [if_pos (hall attempt)]
    by_cases hstop : attempt = retries ∨ tp ≥ maxPause
    · rw [if_pos hstop]
    · rw [if_neg hstop]
      exact ih (attempt + 1) (tp + 2 ^ (attempt + 1))

theorem connectAux_fail_char (fails : Nat → Bool) (retries : Nat) (maxPause : Int) :
    ∀ (fuel attempt : Nat) (tp : Int), attempt ≤ retries →
      fuel = retries + 1 - attempt →
      (connectAttemptsAux fails retries maxPause fuel attempt tp).1 = false →
      ((attempt + (connectAttemptsAux fails retries maxPause fuel attempt tp).2.length
          = retries
        ∨ tp + intSum (connectAttemptsAux fails retries maxPause fuel attempt tp).2
          ≥ maxPause)
       ∧ ∀ j ≤ (connectAttemptsAux fails retries maxPause fuel attempt tp).2.length,
          fails (attempt + j) = true) := by
  intro fuel
  induction fuel with
  | zero =>
    intro attempt tp hle hfuel
    omega
  | succ fuel ih =>
    intro attempt tp hle hfuel hfail
    unfold connectAttemptsAux at hfail ⊢
    by_cases hf : fails attempt = true
    · rw [if_pos hf] at hfail ⊢
      by_cases hstop : attempt = retries ∨ tp ≥ maxPause
      · rw [if_pos hstop]
        refine ⟨?_, ?_⟩
        · show attempt + ([] : List Int).length = retries ∨
            tp + intSum [] ≥ maxPause
          rcases hstop with h | h
          · exact Or.inl (by simpa using h)
          · refine Or.inr ?_
            show tp + intSum [] ≥ maxPause
            unfold intSum
            omega
        · intro j hj
          show fails (attempt + j) = true
          have : j = 0 := by simpa using hj
          rw [this]
          simpa using hf
      · rw [if_neg hstop] at hfail ⊢
        have hlt : attempt < retries := by
          rcases Nat.lt_or_ge attempt retries with h | h
          · exact h
          · exact absurd (Or.inl (Nat.le_antisymm hle h)) hstop
        have hrec := ih (attempt + 1) (tp + 2 ^ (attempt + 1)) (by omega) (by omega)
          hfail
        refine ⟨?_, ?_⟩
        · rcases hrec.1 with h | h
          · refine Or.inl ?_
            simp only [List.length_cons]
            omega
          · refine Or.inr ?_
            simp only [intSum]
            omega
        · intro j hj
          simp only [List.length_cons] at hj
          cases j with
          | zero => simpa using hf
          | succ j' =>
            have := hrec.2 j' (by omega)
            have harith : attempt + (j' + 1) = attempt + 1 + j' := by omega
            rw [harith]
            exact this
    · rw [if_neg hf] at hfail
      cases hfail

theorem connectAux_success (fails : Nat → Bool) (retries : Nat) (maxPause : Int) :
    ∀ (fuel attempt : Nat) (tp : Int),
      (connectAttemptsAux fails retries maxPause fuel attempt tp).1 = true →
      fails (attempt +
        (connectAttemptsAux fails retries maxPause fuel attempt tp).2.length) = false := by
  intro fuel
  induction fuel with
  | zero =>
    intro attempt tp h
    cases h
  | succ fuel ih =>
    intro attempt tp h
    unfold connectAttemptsAux at h ⊢
    by_cases hf : fails attempt = true
    · rw [if_pos hf] at h ⊢
      by_cases hstop : attempt = retries ∨ tp ≥ maxPause
      · rw [if_pos hstop] at h
        cases h
      · rw [if_neg hstop] at h ⊢
        have := ih (attempt + 1) (tp + 2 ^ (attempt + 1)) h
        simp only [List.length_cons]
        have harith : attempt + ((connectAttemptsAux fails retries maxPause fuel
            (attempt + 1) (tp + 2 ^ (attempt + 1))).2.length + 1) =
            attempt + 1 + (connectAttemptsAux fails retries maxPause fuel
              (attempt + 1) (tp + 2 ^ (attempt + 1))).2.length := by omega
        rw [harith]
        exact this
    · rw [if_neg hf] at h ⊢
      simpa using bool_eq_false hf

theorem loginAux_pauses (fails : Nat → Bool) (maxRetries : Nat) :
    ∀ (fuel attempt : Nat) (i : Nat) (p : Int),
      ((loginAttemptsAux fails maxRetries fuel attempt).2).get? i = some p →
      p = (2 : Int) ^ (attempt + i) := by
  intro fuel
  induction fuel with
  | zero =>
    intro attempt i p h
    simp [loginAttemptsAux] at h
  | succ fuel ih =>
    intro attempt i p h
    unfold loginAttemptsAux at h
    by_cases hf : fails attempt = true
    · rw [if_pos hf] at h
      by_cases hstop : attempt = maxRetries - 1
      · rw [if_pos hstop] at h
        simp at h
      · rw [if_neg hstop] at h
        cases i with
        | zero =>
          rw [List.get?_cons_zero] at h
          have hp := Option.some.inj h
          have harith : attempt + 0 = attempt := by omega
          rw [harith]
          exact hp.symm
        | succ j =>
          rw [List.get?_cons_succ] at h
          have hp := ih (attempt + 1) j p h
          have harith : attempt + 1 + j = attempt + (j + 1) := by omega
          rw [← harith]
          exact hp
    · rw [if_neg hf] at h
      simp at h

theorem performLogin_fail_iff (fails : Nat → Bool) :
    (performLogin fails).1 = false ↔
      (fails 0 = true ∧ fails 1 = true ∧ fails 2 = true) := by
  cases h0 : fails 0 <;> cases h1 : fails 1 <;> cases h2 : fails 2 <;>
    simp [performLogin, loginAttemptsAux, h0, h1, h2]

theorem performLogin_len (fails : Nat → Bool) :
    (performLogin fails).2.length ≤ 2 := by
  cases h0 : fails 0 <;> cases h1 : fails 1 <;> cases h2 : fails 2 <;>
    simp [performLogin, loginAttemptsAux, h0, h1, h2]

/-- C6: `Connection._connect` pauses `2^(attempt+1)` seconds between
attempts, makes at most `network_cli_retries` retries beyond the first
attempt, and raises `AnsibleConnectionFailure` exactly when an attempt
fails with either the attempts exhausted or the accumulated pause at least
`min(persistent_connect_timeout, persistent_command_timeout)`; certificate
login makes at most 3 attempts with `2^attempt`-second backoff and raises
only when all three fail. -/
theorem connect_retry_backoff :
    (∀ (fails : Nat → Bool) (retries : Nat) (maxPause : Int) (i : Nat) (p : Int),
        ((connectWithRetries fails retries maxPause).2).get? i = some p →
        p = (2 : Int) ^ (i + 1))
    ∧ (∀ (fails : Nat → Bool) (retries : Nat) (maxPause : Int),
        (connectWithRetries fails retries maxPause).2.length ≤ retries)
    ∧ (∀ (fails : Nat → Bool) (retries : Nat) (maxPause : Int),
        (∀ i, fails i = true) →
        (connectWithRetries fails retries maxPause).1 = false)
    ∧ (∀ (fails : Nat → Bool) (retries : Nat) (maxPause : Int),
        (connectWithRetries fails retries maxPause).1 = false →
        ((connectWithRetries fails retries maxPause).2.length = retries
          ∨ intSum (connectWithRetries fails retries maxPause).2 ≥ maxPause)
        ∧ ∀ j ≤ (connectWithRetries fails retries maxPause).2.length,
            fails j = true)
    ∧ (∀ (fails : Nat → Bool) (retries : Nat) (maxPause : Int),
        (connectWithRetries fails retries maxPause).1 = true →
        fails ((connectWithRetries fails retries maxPause).2.length) = false)
    ∧ (∀ fails : Nat → Bool,
        ((performLogin fails).1 = false ↔
          (fails 0 = true ∧ fails 1 = true ∧ fails 2 = true))
        ∧ (∀ (i : Nat) (p : Int),
            ((performLogin fails).2).get? i = some p → p = (2 : Int) ^ i)
        ∧ (performLogin fails).2.length ≤ 2) := by
  refine ⟨?_, ?_, ?_, ?_, ?_, ?_⟩
  · intro fails retries maxPause i p h
    have := connectAux_pauses fails retries maxPause (retries + 1) 0 0 i p h
    simpa using this
  · intro fails retries maxPause
    have := connectAux_len fails retries maxPause (retries + 1) 0 0
      (Nat.zero_le retries) (by omega)
    simpa using this
  · intro fails retries maxPause hall
    exact connectAux_fail_all fails retries maxPause hall (retries + 1) 0 0
  · intro fails retries maxPause hfail
    have := connectAux_fail_char fails retries maxPause (retries + 1) 0 0
      (Nat.zero_le retries) (by omega) hfail
    refine ⟨?_, ?_⟩
    · rcases this.1 with h | h
      · exact Or.inl (by simpa using h)
      · exact Or.inr (by simpa using h)
    · intro j hj
      have := this.2 j hj
      simpa using this
  · intro fails retries maxPause hsucc
    have := connectAux_success fails retries maxPause (retries + 1) 0 0 hsucc
    simpa using this
  · intro fails
    refine ⟨performLogin_fail_iff fails, ?_, performLogin_len fails⟩
    intro i p h
    have := loginAux_pauses fails 3 3 0 i p h
    simpa using this

/-- C6 witness: the retry loops evaluated on concrete failure patterns. -/
theorem connect_retry_backoff_witness :
    ((connectWithRetries (fun _ => true) 2 100).2).get? 0 = some 2
    ∧ (2 : Int) = (2 : Int) ^ (0 + 1)
    ∧ (connectWithRetries (fun _ => true) 2 100).2.length ≤ 2
    ∧ (connectWithRetries (fun _ => true) 2 100).1 = false
    ∧ ((connectWithRetries (fun _ => true) 2 100).2.length = 2
        ∨ intSum (connectWithRetries (fun _ => true) 2 100).2 ≥ 100)
    ∧ (connectWithRetries (fun _ => false) 2 100).1 = true
    ∧ (fun _ => false : Nat → Bool)
        ((connectWithRetries (fun _ => false) 2 100).2.length) = false
    ∧ (performLogin (fun _ => true)).1 = false
    ∧ ((performLogin (fun _ => true)).2).get? 0 = some 1
    ∧ (1 : Int) = (2 : Int) ^ 0
    ∧ (performLogin (fun _ => true)).2.length ≤ 2 := by
  have h := connect_retry_backoff
  refine ⟨by decide, ?_, h.2.1 (fun _ => true) 2 100, ?_, ?_, ?_, ?_, ?_, by decide, ?_, ?_⟩
  · exact h.1 (fun _ => true) 2 100 0 2 (by decide)
  · exact h.2.2.1 (fun _ => true) 2 100 (fun _ => rfl)
  · exact (h.2.2.2.1 (fun _ => true) 2 100
      (h.2.2.1 (fun _ => true) 2 100 (fun _ => rfl))).1
  · exact (by decide : (connectWithRetries (fun _ => false) 2 100).1 = true)
  · exact h.2.2.2.2.1 (fun _ => false) 2 100 (by decide)
  · exact (h.2.2.2.2.2 (fun _ => true)).1.mpr ⟨rfl, rfl, rfl⟩
  · exact (h.2.2.2.2.2 (fun _ => true)).2.1 0 1 (by decide)
  · exact (h.2.2.2.2.2 (fun _ => true)).2.2

theorem lockRun_append (a b : List LockAct) :
    ∀ d, lockRun d (a ++ b) = (lockRun d a).bind (fun d' => lockRun d' b) := by
  induction a with
  | nil => intro d; rfl
  | cons act rest ih =>
    intro d
    cases act with
    | acq => exact ih (d + 1)
    | rel => exact ih (d - 1)
    | access =>
      show (if d = 0 then none else lockRun d (rest ++ b)) =
        ((if d = 0 then none else lockRun d rest).bind fun d' => lockRun d' b)
      by_cases hd : d = 0
      · rw [if_pos hd, if_pos hd]
        rfl
      · rw [if_neg hd, if_neg hd]
        exact ih d

theorem lockRun_replicate_access (n : Nat) (d : Nat) (hd : ¬ d = 0) :
    lockRun d (List.replicate n LockAct.access) = some d := by
  induction n with
  | zero => rfl
  | succ n ih =>
    show (if d = 0 then none else lockRun d (List.replicate n LockAct.access)) = some d
    rw [if_neg hd]
    exact ih

theorem lockRun_removeConnTrace (p : Bool) (d : Nat) (hd : ¬ d = 0) :
    lockRun d (removeConnTrace p) = some d := by
  cases p <;> simp [removeConnTrace, lockRun, hd]

theorem lockRun_resetTimerTrace (p : Bool) (d : Nat) (hd : ¬ d = 0) :
    lockRun d (resetTimerTrace p) = some d := by
  cases p <;> simp [resetTimerTrace, lockRun, hd]

theorem lockRun_concat_removals (removals : List Bool) (d : Nat) (hd : ¬ d = 0) :
    lockRun d (concatAll (removals.map removeConnTrace)) = some d := by
  induction removals with
  | nil => rfl
  | cons p rest ih =>
    rw [List.map_cons, concatAll_cons, lockRun_append,
      lockRun_removeConnTrace p d hd]
    exact ih

/-- C7: every `_connections` access in every registry method happens with
the class-level RLock held (and each method leaves the lock balanced):
running each method's lock/access trace from an unlocked state never
performs an unlocked access. -/
theorem registry_lock_discipline :
    (∀ present : Bool, lockRun 0 (registerTrace present) = some 0)
    ∧ (∀ present : Bool, lockRun 0 (updateLastUsedTrace present) = some 0)
    ∧ (∀ (n : Nat) (removals : List Bool),
        lockRun 0 (cleanupStaleTrace n removals) = some 0)
    ∧ (∀ present : Bool, lockRun 0 (callbackTrace present) = some 0)
    ∧ (∀ present alive expired : Bool,
        lockRun 0 (timerFireTrace present alive expired) = some 0)
    ∧ (∀ n : Nat, lockRun 0 (cleanupAllTrace n) = some 0) := by
  refine ⟨?_, ?_, ?_, ?_, ?_, ?_⟩
  · intro present
    cases present <;> rfl
  · intro present
    cases present <;> rfl
  · intro n removals
    show lockRun 0 ([LockAct.acq] ++ List.replicate n LockAct.access ++
      concatAll (removals.map removeConnTrace) ++ [LockAct.rel]) = some 0
    rw [lockRun_append, lockRun_append, lockRun_append]
    show ((lockRun 1 (List.replicate n LockAct.access)).bind
        (fun d' => lockRun d' (concatAll (removals.map removeConnTrace)))).bind
        (fun d' => lockRun d' [LockAct.rel]) = some 0
    rw [lockRun_replicate_access n 1 (by omega)]
    show (lockRun 1 (concatAll (removals.map removeConnTrace))).bind
        (fun d' => lockRun d' [LockAct.rel]) = some 0
    rw [lockRun_concat_removals removals 1 (by omega)]
    rfl
  · intro present
    cases present <;> rfl
  · intro present alive expired
    cases present <;> cases alive <;> cases expired <;> rfl
  · intro n
    show lockRun 0 ([LockAct.acq] ++ List.replicate n LockAct.access ++
      [LockAct.access] ++ [LockAct.rel]) = some 0
    rw [lockRun_append, lockRun_append, lockRun_append]
    show ((lockRun 1 (List.replicate n LockAct.access)).bind
        (fun d' => lockRun d' [LockAct.access])).bind
        (fun d' => lockRun d' [LockAct.rel]) = some 0
    rw [lockRun_replicate_access n 1 (by omega)]
    rfl

/-- C9: `_force_cleanup` is idempotent — the first call closes the stack,
nulls `stack` and `client` and sets `_cleanup_done`; with `_cleanup_done`
set it is a strict no-op; and `initialize` on a cleaned-up context raises
`AnsibleConnectionFailure` without creating a client. -/
theorem force_cleanup_idempotent :
    (∀ c : ClientCtx, forceCleanup ((forceCleanup c).1) = ((forceCleanup c).1, []))
    ∧ (∀ c : ClientCtx, c.cleanup_done = true → forceCleanup c = (c, []))
    ∧ (∀ c : ClientCtx, c.cleanup_done = false →
        (forceCleanup c).1 = ⟨none, none, true⟩
        ∧ ∀ s, c.stack = some s → (forceCleanup c).2 = [CtxEvent.closeStack s])
    ∧ (∀ (c : ClientCtx) (fs fc : Nat) (ok : Bool), c.cleanup_done = true →
        initializeContext c fs fc ok =
          (Except.error "Connection context has been cleaned up", [])) := by
  refine ⟨?_, ?_, ?_, ?_⟩
  · intro c
    by_cases hd : c.cleanup_done = true
    · have h1 : forceCleanup c = (c, []) := by
        unfold forceCleanup
        rw [if_pos hd]
      rw [h1]
      unfold forceCleanup
      rw [if_pos hd]
    · have h1 : (forceCleanup c).1 = ⟨none, none, true⟩ := by
        unfold forceCleanup
        rw [if_neg hd]
      rw [h1]
      rfl
  · intro c hd
    unfold forceCleanup
    rw [if_pos hd]
  · intro c hd
    constructor
    · unfold forceCleanup
      rw [if_neg (by rw [hd]; exact Bool.false_ne_true)]
    · intro s hs
      unfold forceCleanup
      rw [if_neg (by rw [hd]; exact Bool.false_ne_true)]
      show (match c.stack with
        | some s => [CtxEvent.closeStack s]
        | none => ([] : List CtxEvent)) = [CtxEvent.closeStack s]
      rw [hs]
  · intro c fs fc ok hd
    unfold initializeContext
    rw [if_pos hd]

/-- C9 witness: the cleanup lifecycle evaluated on concrete contexts. -/
theorem force_cleanup_idempotent_witness :
    forceCleanup ((forceCleanup ⟨some 1, some 2, false⟩).1) =
      ((forceCleanup (⟨some 1, some 2, false⟩ : ClientCtx)).1, [])
    ∧ ((⟨none, none, true⟩ : ClientCtx).cleanup_done = true
      ∧ forceCleanup ⟨none, none, true⟩ = (⟨none, none, true⟩, []))
    ∧ ((⟨some 1, some 2, false⟩ : ClientCtx).cleanup_done = false
      ∧ (forceCleanup ⟨some 1, some 2, false⟩).1 = ⟨none, none, true⟩
      ∧ (forceCleanup (⟨some 1, some 2, false⟩ : ClientCtx)).2 =
          [CtxEvent.closeStack 1])
    ∧ initializeContext ⟨none, none, true⟩ 3 4 true =
        (Except.error "Connection context has been cleaned up", []) := by
  have h := force_cleanup_idempotent
  refine ⟨h.1 ⟨some 1, some 2, false⟩, ⟨rfl, h.2.1 ⟨none, none, true⟩ rfl⟩,
    ⟨rfl, (h.2.2.1 ⟨some 1, some 2, false⟩ rfl).1,
      (h.2.2.1 ⟨some 1, some 2, false⟩ rfl).2 1 rfl⟩,
    h.2.2.2 ⟨none, none, true⟩ 3 4 true rfl⟩

end Radkit
